import Mathlib

/-!
Shallow embedding of the spatial-acceleration core of the `tracy` ray tracer
(src/vec3.rs, src/ray.rs, src/bounding.rs, src/sphere.rs, src/quad.rs,
src/hittable.rs, src/bvh.rs), together with theorems settling the frozen
claims about it.

Modelling conventions:
* `f64` values are embedded as exact rationals (`ℚ`); decimal literals of the
  source (`0.0001`, `1e-8`) appear as the exact fractions `1/10000`,
  `1/100000000`.
* `f64::sqrt` is embedded as `rat_sqrt`, an exact integer square root on
  numerator and denominator.  Every concrete input used in a theorem below has
  a perfect-square argument, where `rat_sqrt` agrees exactly with the real
  square root.
* The IEEE infinities produced by `BoundingBox::empty` cannot be represented
  in `ℚ`; a separate three-valued coordinate type `F` (`ninf | fin q | inf`)
  models them for the claims that mention the empty box, and the lemma
  `box_betweenF_empty_left` justifies folding merges of a nonempty box list
  from its head in the rational model.
* Rust recursion that is not structural (`BvhSlab::traverse`,
  `BvhSlab::recurse_nodes`) is embedded with an explicit fuel parameter;
  exhausted fuel and the panicking paths of the source (out-of-bounds
  indexing, usize underflow) are both mapped to `none` in an outer `Option`.
* `Sphere::get_sphere_uv` uses the transcendental functions `acos`/`atan2`
  and `π`, which have no rational embedding; every definition that needs it
  takes an abstract parameter `suv : Vec3 → ℚ × ℚ` standing for that mapping.
  No claim constrains the sphere's surface coordinates.
-/

attribute [local semireducible] Rat.mul Rat.inv Rat.add Rat.sub

set_option maxRecDepth 100000

namespace Tracy

/-- Fuel-based integer square root (largest `k` with `k*k ≤ n`), used to embed
`f64::sqrt`; unlike `Nat.sqrt` it reduces in the kernel. -/
def nat_sqrt (n : ℕ) : ℕ := go n where
  go : ℕ → ℕ
  | 0 => 0
  | k+1 => if (k+1)*(k+1) ≤ n then k+1 else go k

/-- Embedding of `f64::sqrt` on nonnegative rationals; exact on perfect
squares (the only arguments reached by the concrete inputs below). -/
def rat_sqrt (q : ℚ) : ℚ := (nat_sqrt q.num.toNat : ℚ) / (nat_sqrt q.den : ℚ)

/-- `Vec3` (src/vec3.rs): a 3-component tuple.  `Point3` wraps the same
representation in the source; the wrapper adds no data, so both are embedded
as this one structure. -/
structure Vec3 where
  x : ℚ
  y : ℚ
  z : ℚ
deriving DecidableEq, Repr

/-- `Point3` shares `Vec3`'s representation (src/vec3.rs `Point3 { data: Vec3 }`). -/
abbrev Point3 := Vec3

namespace Vec3

/-- `Vec3::axis` (indexing into the component array). -/
def axis : Vec3 → ℕ → ℚ
  | v, 0 => v.x
  | v, 1 => v.y
  | v, _ => v.z

/-- `Vec3::length_squared`. -/
def length_squared (v : Vec3) : ℚ := v.x * v.x + v.y * v.y + v.z * v.z

instance : Neg Vec3 := ⟨fun v => ⟨-v.x, -v.y, -v.z⟩⟩
instance : Add Vec3 := ⟨fun u v => ⟨u.x + v.x, u.y + v.y, u.z + v.z⟩⟩
instance : Sub Vec3 := ⟨fun u v => ⟨u.x - v.x, u.y - v.y, u.z - v.z⟩⟩

/-- `Vec3 * f64` (componentwise scaling). -/
def smul (v : Vec3) (t : ℚ) : Vec3 := ⟨v.x * t, v.y * t, v.z * t⟩

/-- `Vec3 / f64`. -/
def sdiv (v : Vec3) (t : ℚ) : Vec3 := ⟨v.x / t, v.y / t, v.z / t⟩

/-- `Point3::most_minimum` (componentwise minimum chosen by `<=` tests). -/
def most_minimum (a b : Vec3) : Vec3 :=
  ⟨if a.x ≤ b.x then a.x else b.x,
   if a.y ≤ b.y then a.y else b.y,
   if a.z ≤ b.z then a.z else b.z⟩

/-- `Point3::most_maximum` (componentwise maximum chosen by `>=` tests). -/
def most_maximum (a b : Vec3) : Vec3 :=
  ⟨if a.x ≥ b.x then a.x else b.x,
   if a.y ≥ b.y then a.y else b.y,
   if a.z ≥ b.z then a.z else b.z⟩

/-- `Vec3::length`. -/
def length (v : Vec3) : ℚ := rat_sqrt v.length_squared

end Vec3

/-- Free function `dot` (src/vec3.rs). -/
def dot (u v : Vec3) : ℚ := u.x * v.x + u.y * v.y + u.z * v.z

/-- Free function `cross` (src/vec3.rs). -/
def cross (u v : Vec3) : Vec3 :=
  ⟨u.y * v.z - u.z * v.y,
   u.z * v.x - u.x * v.z,
   u.x * v.y - u.y * v.x⟩

/-- Free function `unit_vector` (src/vec3.rs): `v / v.length()`. -/
def unit_vector (v : Vec3) : Vec3 := v.sdiv v.length

/-- `Ray` (src/ray.rs). -/
structure Ray where
  origin : Point3
  direction : Vec3
  time : ℚ
deriving DecidableEq, Repr

/-- `Ray::at`: `origin + direction * t`. -/
def Ray.at (r : Ray) (t : ℚ) : Point3 := r.origin + r.direction.smul t

/-- `BoundingBox` (src/bounding.rs) with finite (rational) corners.  The
infinite corners of `BoundingBox::empty` live in the separate `F`-coordinate
model below. -/
structure BoundingBox where
  lower : Point3
  upper : Point3
deriving DecidableEq, Repr

/-- `IntersectionRecord` (src/bounding.rs). -/
structure IntersectionRecord where
  tmin : ℚ
  tmax : ℚ
deriving DecidableEq, Repr

namespace BoundingBox

/-- `BoundingBox::axis_length`: `|upper[axis] - lower[axis]|`. -/
def axis_length (b : BoundingBox) (axis : ℕ) : ℚ :=
  |b.upper.axis axis - b.lower.axis axis|

/-- `BoundingBox::pad_minimum`: each axis of extent `< 0.0001` is expanded by
`±0.0001/2`. -/
def pad_minimum (b : BoundingBox) : BoundingBox :=
  let pad : ℚ := 1/10000
  let step := fun (ax : ℕ) (bx : BoundingBox) =>
    if bx.axis_length ax < pad then
      { lower := match ax with
          | 0 => { bx.lower with x := bx.lower.x - pad/2 }
          | 1 => { bx.lower with y := bx.lower.y - pad/2 }
          | _ => { bx.lower with z := bx.lower.z - pad/2 }
        upper := match ax with
          | 0 => { bx.upper with x := bx.upper.x + pad/2 }
          | 1 => { bx.upper with y := bx.upper.y + pad/2 }
          | _ => { bx.upper with z := bx.upper.z + pad/2 } }
    else bx
  step 2 (step 1 (step 0 b))

/-- `BoundingBox::new`: componentwise min/max of the two points, then
`pad_minimum`. -/
def new (a b : Point3) : BoundingBox :=
  let upper : Point3 :=
    ⟨if a.x > b.x then a.x else b.x,
     if a.y > b.y then a.y else b.y,
     if a.z > b.z then a.z else b.z⟩
  let lower : Point3 :=
    ⟨if a.x < b.x then a.x else b.x,
     if a.y < b.y then a.y else b.y,
     if a.z < b.z then a.z else b.z⟩
  pad_minimum { lower := lower, upper := upper }

/-- `BoundingBox::box_between`: componentwise min of lowers / max of uppers. -/
def box_between (a b : BoundingBox) : BoundingBox :=
  { lower := a.lower.most_minimum b.lower
    upper := a.upper.most_maximum b.upper }

/-- `BoundingBox::longest_axis`.  The source uses Rust `Iterator::max_by`,
which keeps the LAST of several equally-maximal elements; this fold mirrors
that exactly. -/
def longest_axis (b : BoundingBox) : ℕ :=
  let l0 := b.axis_length 0
  let l1 := b.axis_length 1
  let l2 := b.axis_length 2
  let p1 : ℕ × ℚ := if l0 > l1 then (0, l0) else (1, l1)
  let p2 : ℕ × ℚ := if p1.2 > l2 then p1 else (2, l2)
  p2.1

/-- One axis iteration of `BoundingBox::intersects`.  Faithful to the source:
each comparison is made against the ORIGINAL `t_min` / `t_max` arguments, not
against the running values in `cur`. -/
def axis_step (b : BoundingBox) (ray : Ray) (t_min t_max : ℚ) (axis : ℕ)
    (cur : ℚ × ℚ) : Option (ℚ × ℚ) :=
  let ax_min := b.lower.axis axis
  let ax_max := b.upper.axis axis
  let adinv := 1 / ray.direction.axis axis
  let t0 := (ax_min - ray.origin.axis axis) * adinv
  let t1 := (ax_max - ray.origin.axis axis) * adinv
  let tmin_out := if t0 < t1 then (if t0 > t_min then t0 else cur.1)
                  else (if t1 > t_min then t1 else cur.1)
  let tmax_out := if t0 < t1 then (if t1 < t_max then t1 else cur.2)
                  else (if t0 < t_max then t0 else cur.2)
  if tmax_out ≤ tmin_out then none else some (tmin_out, tmax_out)

/-- `BoundingBox::intersects`: the three-axis slab walk with early `None` as
soon as the running pair collapses. -/
def intersects (b : BoundingBox) (ray : Ray) (t_min t_max : ℚ) :
    Option IntersectionRecord :=
  match axis_step b ray t_min t_max 0 (t_min, t_max) with
  | none => none
  | some c0 =>
    match axis_step b ray t_min t_max 1 c0 with
    | none => none
    | some c1 =>
      match axis_step b ray t_min t_max 2 c1 with
      | none => none
      | some c2 => some ⟨c2.1, c2.2⟩

end BoundingBox

/-- Coordinate type with IEEE-style infinities, for `BoundingBox::empty`
(lower `= +∞`, upper `= −∞`).  Only the comparisons used by
`most_minimum`/`most_maximum` are needed on it. -/
inductive F where
  | ninf
  | fin (q : ℚ)
  | inf
deriving DecidableEq, Repr

namespace F

/-- IEEE `<=` restricted to non-NaN values. -/
def ble : F → F → Bool
  | ninf, _ => true
  | fin _, ninf => false
  | fin a, fin b => a ≤ b
  | fin _, inf => true
  | inf, inf => true
  | inf, _ => false

end F

/-- A 3-component tuple over `F`. -/
structure Vec3F where
  x : F
  y : F
  z : F
deriving DecidableEq, Repr

/-- `Point3::most_minimum` over `F` (per axis: `if a <= b then a else b`). -/
def Vec3F.most_minimum (a b : Vec3F) : Vec3F :=
  ⟨if a.x.ble b.x then a.x else b.x,
   if a.y.ble b.y then a.y else b.y,
   if a.z.ble b.z then a.z else b.z⟩

/-- `Point3::most_maximum` over `F` (per axis: `if a >= b then a else b`). -/
def Vec3F.most_maximum (a b : Vec3F) : Vec3F :=
  ⟨if b.x.ble a.x then a.x else b.x,
   if b.y.ble a.y then a.y else b.y,
   if b.z.ble a.z then a.z else b.z⟩

/-- `BoundingBox` with possibly-infinite corners. -/
structure BoundingBoxF where
  lower : Vec3F
  upper : Vec3F
deriving DecidableEq, Repr

/-- `BoundingBox::empty` (src/bounding.rs): lower `= (+∞,+∞,+∞)`, upper
`= (−∞,−∞,−∞)`. -/
def BoundingBoxF.empty : BoundingBoxF :=
  { lower := ⟨F.inf, F.inf, F.inf⟩, upper := ⟨F.ninf, F.ninf, F.ninf⟩ }

/-- `BoundingBox::box_between` over `F`. -/
def BoundingBoxF.box_between (a b : BoundingBoxF) : BoundingBoxF :=
  { lower := a.lower.most_minimum b.lower
    upper := a.upper.most_maximum b.upper }

/-- Embedding of a finite box into the `F`-coordinate model. -/
def BoundingBox.toF (b : BoundingBox) : BoundingBoxF :=
  { lower := ⟨F.fin b.lower.x, F.fin b.lower.y, F.fin b.lower.z⟩
    upper := ⟨F.fin b.upper.x, F.fin b.upper.y, F.fin b.upper.z⟩ }

/-- Rational-model merge of the source fold `empty ⊔ b₁ ⊔ … ⊔ bₙ`
(see `box_betweenF_empty_left`); the `[]` case is never reached on the build
paths below, which all guard against empty shape lists. -/
def merged_box : List BoundingBox → BoundingBox
  | [] => { lower := ⟨0, 0, 0⟩, upper := ⟨0, 0, 0⟩ }
  | b :: bs => bs.foldl BoundingBox.box_between b

/-- `HitRecord` (src/hittable.rs).  The shared material handle
(`Arc<dyn Material>`) carries no data the core inspects, so material IDENTITY
is embedded as a numeric id `mat`. -/
structure HitRecord where
  p : Point3
  normal : Vec3
  t : ℚ
  front_face : Bool
  mat : ℕ
  u : ℚ
  v : ℚ
deriving DecidableEq, Repr

/-- `HitRecord::set_face_normal`. -/
def HitRecord.set_face_normal (rec : HitRecord) (ray : Ray) (out_normal : Vec3) :
    HitRecord :=
  let ff := dot ray.direction out_normal < 0
  { rec with front_face := ff
             normal := if ff then out_normal else -out_normal }

/-- `Sphere` (src/sphere.rs): a moving center described by a `Ray`, a radius,
a material handle, and the precomputed bounding box. -/
structure Sphere where
  movement : Ray
  radius : ℚ
  mat : ℕ
  bounding : BoundingBox
deriving DecidableEq, Repr

namespace Sphere

/-- `Sphere::new`: bounding box is the merge of the radius-padded boxes at
time 0 and at time 1. -/
def new (movement : Ray) (radius : ℚ) (mat : ℕ) : Sphere :=
  let rvec : Vec3 := ⟨radius, radius, radius⟩
  let box1 := BoundingBox.new (movement.at 0 - rvec) (movement.at 0 + rvec)
  let box2 := BoundingBox.new (movement.at 1 - rvec) (movement.at 1 + rvec)
  { movement := movement, radius := radius, mat := mat
    bounding := box1.box_between box2 }

/-- `Sphere::hit`.  `suv` abstracts `get_sphere_uv` (transcendental, see the
header comment). -/
def hit (suv : Vec3 → ℚ × ℚ) (s : Sphere) (ray : Ray) (ray_tmin ray_tmax : ℚ) :
    Option HitRecord :=
  let current_position := s.movement.at ray.time
  let oc : Vec3 := current_position - ray.origin
  let a := ray.direction.length_squared
  let h := dot ray.direction oc
  let c := oc.length_squared - s.radius * s.radius
  let discriminant := h * h - a * c
  if discriminant < 0 then none
  else
    let sqrtd := rat_sqrt discriminant
    let root1 := (h - sqrtd) / a
    let root2 := (h + sqrtd) / a
    let root := if root1 ≤ ray_tmin ∨ ray_tmax ≤ root1 then root2 else root1
    if (root1 ≤ ray_tmin ∨ ray_tmax ≤ root1) ∧
       (root2 ≤ ray_tmin ∨ ray_tmax ≤ root2) then none
    else
      let p := ray.at root
      let normal := (p - current_position).sdiv s.radius
      let uv := suv normal
      let rec0 : HitRecord :=
        { p := p, normal := normal, t := root, front_face := false
          mat := s.mat, u := uv.1, v := uv.2 }
      some (rec0.set_face_normal ray normal)

end Sphere

/-- `Quad` (src/quad.rs): corner `q`, edges `u`,`v`, material, bounding box
and the precomputed plane data `normal`, `d`, `w`.  The debug-logging closure
`f` of the source carries no data and is omitted. -/
structure Quad where
  q : Point3
  u : Vec3
  v : Vec3
  mat : ℕ
  bounds : BoundingBox
  normal : Vec3
  d : ℚ
  w : Vec3
deriving DecidableEq, Repr

namespace Quad

/-- `Quad::new`. -/
def new (q : Point3) (u v : Vec3) (mat : ℕ) : Quad :=
  let bound1 := BoundingBox.new q (q + u + v)
  let bound2 := BoundingBox.new (q + u) (q + v)
  let full_bounds := bound1.box_between bound2
  let n := cross u v
  let normal := unit_vector n
  let d := dot normal q
  let w := n.sdiv (dot n n)
  { q := q, u := u, v := v, mat := mat, bounds := full_bounds
    normal := normal, d := d, w := w }

/-- `Quad::is_interior`: `Some (a,b)` exactly when both planar coordinates
lie in the half-open range `[0,1)` (Rust `Range::contains`). -/
def is_interior (a b : ℚ) : Option (ℚ × ℚ) :=
  if ¬(0 ≤ a ∧ a < 1) ∨ ¬(0 ≤ b ∧ b < 1) then none else some (a, b)

/-- `Quad::hit`. -/
def hit (qd : Quad) (r : Ray) (ray_tmin ray_tmax : ℚ) : Option HitRecord :=
  let denom := dot qd.normal r.direction
  if |denom| < 1/100000000 then none
  else
    let t := (qd.d - dot qd.normal r.origin) / denom
    if ray_tmin > t ∨ t > ray_tmax then none
    else
      let intersection := r.at t
      let planar_hit_vec := intersection - qd.q
      let alpha := dot qd.w (cross planar_hit_vec qd.v)
      let beta := dot qd.w (cross qd.u planar_hit_vec)
      match is_interior alpha beta with
      | none => none
      | some (u, v) =>
        let rec0 : HitRecord :=
          { p := intersection, normal := qd.normal, t := t, front_face := false
            mat := qd.mat, u := u, v := v }
        some (rec0.set_face_normal r qd.normal)

end Quad

/-- The shapes stored behind `Box<dyn Hittable>` in the scenes exercised by
the claims: spheres and quads. -/
inductive Shape where
  | sphere (s : Sphere)
  | quad (q : Quad)
deriving DecidableEq, Repr

/-- Dynamic dispatch of `Hittable::hit`. -/
def Shape.hit (suv : Vec3 → ℚ × ℚ) : Shape → Ray → ℚ → ℚ → Option HitRecord
  | .sphere s, r, tmin, tmax => s.hit suv r tmin tmax
  | .quad q, r, tmin, tmax => q.hit r tmin tmax

/-- Dynamic dispatch of `Hittable::bounding_box`. -/
def Shape.bounding_box : Shape → BoundingBox
  | .sphere s => s.bounding
  | .quad q => q.bounds

/-- The loop body state of `HittableList::hit`: the running `closest_so_far`
and the best record. -/
def list_hit_aux (suv : Vec3 → ℚ × ℚ) :
    List Shape → Ray → ℚ → ℚ → Option HitRecord → Option HitRecord
  | [] => fun _ _ _ record => record
  | s :: rest => fun ray t_min closest record =>
    match s.hit suv ray t_min closest with
    | some last_record =>
      list_hit_aux suv rest ray t_min last_record.t (some last_record)
    | none => list_hit_aux suv rest ray t_min closest record

/-- `HittableList::hit` (src/hittable.rs): linear scan shrinking
`closest_so_far` to each accepted hit's `t`. -/
def list_hit (suv : Vec3 → ℚ × ℚ) (objs : List Shape) (ray : Ray)
    (t_min t_max : ℚ) : Option HitRecord :=
  list_hit_aux suv objs ray t_min t_max none

/-- `BvhSlab` (src/bvh.rs): one slot of the flat tree array. -/
inductive BvhSlab where
  | leaf (parent_index : ℕ) (shape_index : ℕ)
  | node (parent_index : ℕ) (bounds : BoundingBox) (left_index : ℕ)
      (right_index : ℕ)
deriving DecidableEq, Repr

/-- The `parent_index` field common to both slab variants. -/
def BvhSlab.parent_index : BvhSlab → ℕ
  | .leaf p _ => p
  | .node p _ _ _ => p

/-- The `(left_hit, right_hit)` match of `BvhSlab::traverse`: both child
results exist → the strictly smaller `t` wins, an exact tie yields the RIGHT
child's record. -/
def combine_hits : Option HitRecord → Option HitRecord → Option HitRecord
  | some a, some b => some (if a.t < b.t then a else b)
  | some a, none => some a
  | none, some b => some b
  | none, none => none

/-- Panic propagation for the two recursive child calls of
`BvhSlab::traverse`: the source's `(left_hit, right_hit)` match runs only
when both child traversals returned normally. -/
def traverse_children : Option (Option HitRecord) → Option (Option HitRecord) →
    Option (Option HitRecord)
  | some left_hit, some right_hit => some (combine_hits left_hit right_hit)
  | _, _ => none

/-- The `Leaf` arm of `BvhSlab::traverse`: delegate to
`objects[shape_index]`, with out-of-bounds indexing (a Rust panic) mapped to
the outer `none`. -/
def leaf_step (suv : Vec3 → ℚ × ℚ) (objects : List Shape) (shape_index : ℕ)
    (r : Ray) (t_min t_max : ℚ) : Option (Option HitRecord) :=
  match objects[shape_index]? with
  | none => none
  | some sh => some (sh.hit suv r t_min t_max)

/-- One unfolding of the body of `BvhSlab::traverse`, parametrized by the
recursive call `go`.  Note both children receive the TIGHTENED
`inter.tmin, inter.tmax` from the box test. -/
def traverse_step (suv : Vec3 → ℚ × ℚ)
    (go : List BvhSlab → ℕ → Ray → ℚ → ℚ → List Shape → Option (Option HitRecord))
    (nodes : List BvhSlab) (node_index : ℕ) (r : Ray) (t_min t_max : ℚ)
    (objects : List Shape) : Option (Option HitRecord) :=
  match nodes[node_index]? with
  | none => none
  | some (.node _ bounds left_index right_index) =>
    match bounds.intersects r t_min t_max with
    | some inter =>
      traverse_children (go nodes left_index r inter.tmin inter.tmax objects)
        (go nodes right_index r inter.tmin inter.tmax objects)
    | none => some none
  | some (.leaf _ shape_index) => leaf_step suv objects shape_index r t_min t_max

/-- `BvhSlab::traverse` with a fuel parameter.  The outer `Option` is `none`
on exhausted fuel and on the source's panicking paths (`nodes[node_index]` or
`objects[shape_index]` out of bounds); `some result` is the value the source
returns. -/
def BvhSlab.traverse (suv : Vec3 → ℚ × ℚ) :
    ℕ → List BvhSlab → ℕ → Ray → ℚ → ℚ → List Shape → Option (Option HitRecord)
  | 0 => fun _ _ _ _ _ _ => none
  | fuel+1 => traverse_step suv (BvhSlab.traverse suv fuel)

/-- One unfolding of the body of `BvhSlab::recurse_nodes`, parametrized by
the recursive call `go`.  `none` models the source's panics: the usize
underflow `0*2-1` on an empty sublist, the `indicies[0]` indexing on an
empty index list, and `Vec::insert` beyond the end.  On the build paths all
inserts happen at `index = nodes.len()`. -/
def recurse_step
    (go : List Shape → List ℕ → List BvhSlab → ℕ → Option (List BvhSlab))
    (objs_list : List Shape) (indicies : List ℕ) (nodes : List BvhSlab)
    (index : ℕ) : Option (List BvhSlab) :=
  match objs_list.length with
  | 0 => none
  | 1 =>
    match indicies with
    | [] => none
    | i0 :: _ =>
      if index ≤ nodes.length then
        some (nodes.insertIdx index (.leaf index i0))
      else none
  | _+2 =>
    let len := objs_list.length
    let mid := len / 2
    if mid ≤ indicies.length then
      let bbox := merged_box (objs_list.map Shape.bounding_box)
      let left_objects := objs_list.take mid
      let right_objects := objs_list.drop mid
      let left_indicies := indicies.take mid
      let right_indicies := indicies.drop mid
      let left_len := 2 * mid - 1
      if index ≤ nodes.length then
        let nodes1 := nodes.insertIdx index
          (.node index bbox (index + 1) (index + 1 + left_len))
        match go left_objects left_indicies nodes1 (index + 1) with
        | none => none
        | some nodes2 =>
          go right_objects right_indicies nodes2 (index + 1 + left_len)
      else none
    else none

/-- `BvhSlab::recurse_nodes` with a fuel parameter (see `recurse_step`). -/
def BvhSlab.recurse_nodes : ℕ → List Shape → List ℕ → List BvhSlab → ℕ →
    Option (List BvhSlab)
  | 0 => fun _ _ _ _ => none
  | fuel+1 => recurse_step (BvhSlab.recurse_nodes fuel)

/-- The in-place `Vec::sort_by` step of `BvhSlab::build_nodes`: sort the
shapes by their own bounding-box extent along the longest axis of the merged
box.  `sort_by` is a stable sort; it is embedded as the (stable) insertion
sort on the same comparator, which any stable sort equals extensionally for
a total comparator. -/
def BvhSlab.sort_shapes (objs : List Shape) : List Shape :=
  let bbox := merged_box (objs.map Shape.bounding_box)
  let axis := bbox.longest_axis
  objs.insertionSort
    (fun o1 o2 => o1.bounding_box.axis_length axis ≤ o2.bounding_box.axis_length axis)

/-- `BvhSlab::build_nodes`: sort, then recurse from slot 0.  The
reserve-size computation `(len * 2) - 1` underflows (panics) on an empty
list, mapped to `none`. -/
def BvhSlab.build_nodes (objs : List Shape) : Option (List BvhSlab) :=
  if objs.length = 0 then none
  else
    BvhSlab.recurse_nodes (objs.length + 1) (BvhSlab.sort_shapes objs)
      (List.range (BvhSlab.sort_shapes objs).length) [] 0

/-- `BvhTree` (src/bvh.rs). -/
structure BvhTree where
  hittables : List Shape
  nodes : List BvhSlab
  bounds : BoundingBoxF
deriving DecidableEq, Repr

namespace BvhTree

/-- `BvhTree::new`: empty shape list, empty node array, infinite empty box —
and no error value anywhere. -/
def new : BvhTree :=
  { hittables := [], nodes := [], bounds := BoundingBoxF.empty }

/-- `BvhTree::add`: merge the bounds, push the shape, rebuild the whole node
array.  `build_nodes` sorts `self.hittables` in place through its `&mut`
argument, so the stored shape list is the sorted one.  A `none` result
models a panic inside `build_nodes`. -/
def add (t : BvhTree) (object : Shape) : Option BvhTree :=
  let bounds := t.bounds.box_between object.bounding_box.toF
  let hittables := t.hittables ++ [object]
  match BvhSlab.build_nodes hittables with
  | none => none
  | some nodes =>
    some { hittables := BvhSlab.sort_shapes hittables, nodes := nodes
           bounds := bounds }

/-- `Hittable::hit` for `BvhTree`: traverse from the root slot 0.  The fuel
`nodes.length + 1` is enough for any array the build produces. -/
def hit (suv : Vec3 → ℚ × ℚ) (t : BvhTree) (r : Ray) (ray_tmin ray_tmax : ℚ) :
    Option (Option HitRecord) :=
  BvhSlab.traverse suv (t.nodes.length + 1) t.nodes 0 r ray_tmin ray_tmax
    t.hittables

end BvhTree

/-- One unfolding of the layout predicate body, parametrized by the
recursive call `go`: slot `p` of `ns` roots a well-laid-out subtree over `k`
shapes exactly as claim C4 describes (a singleton gives a `Leaf`; otherwise
an internal `Node` whose left child sits at `p+1`, whose right child sits at
`p+1+(2L-1)` for the left-half size `L = k/2`, with the two subtrees laid
out recursively in the slots in between). -/
def layout_step (go : List BvhSlab → ℕ → ℕ → Bool) (ns : List BvhSlab)
    (p k : ℕ) : Bool :=
  match k with
  | 0 => false
  | 1 =>
    match ns[p]? with
    | some (.leaf _ _) => true
    | _ => false
  | _+2 =>
    match ns[p]? with
    | some (.node _ _ li ri) =>
      (li == p + 1) && (ri == p + 1 + (2 * (k / 2) - 1)) &&
      go ns (p + 1) (k / 2) && go ns (p + 1 + (2 * (k / 2) - 1)) (k - k / 2)
    | _ => false

/-- Fueled layout predicate (the fuel only bounds the recursion depth). -/
def layout_ok : ℕ → List BvhSlab → ℕ → ℕ → Bool
  | 0 => fun _ _ _ => false
  | fuel+1 => layout_step (layout_ok fuel)

/-- Componentwise (closed) containment of a point in a box. -/
def in_box (b : BoundingBox) (p : Point3) : Prop :=
  b.lower.x ≤ p.x ∧ p.x ≤ b.upper.x ∧
  b.lower.y ≤ p.y ∧ p.y ≤ b.upper.y ∧
  b.lower.z ≤ p.z ∧ p.z ≤ b.upper.z

instance (b : BoundingBox) (p : Point3) : Decidable (in_box b p) := by
  unfold in_box
  infer_instance

/-- Componentwise strict containment of a point in a box. -/
def strictly_in_box (b : BoundingBox) (p : Point3) : Prop :=
  b.lower.x < p.x ∧ p.x < b.upper.x ∧
  b.lower.y < p.y ∧ p.y < b.upper.y ∧
  b.lower.z < p.z ∧ p.z < b.upper.z

namespace Sphere

/-- Intermediate value `a` of `Sphere::hit`. -/
def hit_a (_s : Sphere) (r : Ray) : ℚ := r.direction.length_squared

/-- Intermediate value `h` (the half-b term) of `Sphere::hit`. -/
def hit_h (s : Sphere) (r : Ray) : ℚ :=
  dot r.direction (s.movement.at r.time - r.origin)

/-- Intermediate value `c` of `Sphere::hit`. -/
def hit_c (s : Sphere) (r : Ray) : ℚ :=
  (s.movement.at r.time - r.origin).length_squared - s.radius * s.radius

/-- The quadratic discriminant of `Sphere::hit`. -/
def discriminant (s : Sphere) (r : Ray) : ℚ :=
  hit_h s r * hit_h s r - hit_a s r * hit_c s r

/-- The smaller candidate root `(h - sqrt d) / a` of `Sphere::hit`. -/
def root1 (s : Sphere) (r : Ray) : ℚ :=
  (hit_h s r - rat_sqrt (discriminant s r)) / hit_a s r

/-- The larger candidate root `(h + sqrt d) / a` of `Sphere::hit`. -/
def root2 (s : Sphere) (r : Ray) : ℚ :=
  (hit_h s r + rat_sqrt (discriminant s r)) / hit_a s r

end Sphere

/-- The hit record `Sphere::hit` builds for an accepted root. -/
def Sphere.mk_hit (suv : Vec3 → ℚ × ℚ) (s : Sphere) (r : Ray) (root : ℚ) :
    HitRecord :=
  let p := r.at root
  let normal := (p - s.movement.at r.time).sdiv s.radius
  let uv := suv normal
  HitRecord.set_face_normal
    { p := p, normal := normal, t := root, front_face := false
      mat := s.mat, u := uv.1, v := uv.2 } r normal

namespace Quad

/-- The plane parameter `t` computed by `Quad::hit`. -/
def plane_t (qd : Quad) (r : Ray) : ℚ :=
  (qd.d - dot qd.normal r.origin) / dot qd.normal r.direction

/-- The planar coordinate `alpha` computed by `Quad::hit`. -/
def alpha (qd : Quad) (r : Ray) : ℚ :=
  dot qd.w (cross (r.at (plane_t qd r) - qd.q) qd.v)

/-- The planar coordinate `beta` computed by `Quad::hit`. -/
def beta (qd : Quad) (r : Ray) : ℚ :=
  dot qd.w (cross qd.u (r.at (plane_t qd r) - qd.q))

end Quad

/-- The hit record `Quad::hit` builds for an accepted plane intersection. -/
def Quad.hit_record (qd : Quad) (r : Ray) : HitRecord :=
  HitRecord.set_face_normal
    { p := r.at (Quad.plane_t qd r), normal := qd.normal
      t := Quad.plane_t qd r, front_face := false, mat := qd.mat
      u := Quad.alpha qd r, v := Quad.beta qd r } r qd.normal

/-- The invariant claimed for created boxes: ordered corners and a minimum
extent of `1e-4` on every axis. -/
def box_inv (b : BoundingBox) : Prop :=
  b.lower.x ≤ b.upper.x ∧ b.lower.y ≤ b.upper.y ∧ b.lower.z ≤ b.upper.z ∧
  1/10000 ≤ b.axis_length 0 ∧ 1/10000 ≤ b.axis_length 1 ∧ 1/10000 ≤ b.axis_length 2

instance (b : BoundingBox) : Decidable (box_inv b) := by
  unfold box_inv
  infer_instance

/-! ### Concrete scenes used by the theorems below -/

/-- A trivial stand-in for the abstract spherical-uv mapping (no claim
constrains sphere surface coordinates). -/
def suv0 : Vec3 → ℚ × ℚ := fun _ => (0, 0)

/-- Static unit sphere at the origin, material id 1. -/
def sphere_at_origin : Shape := .sphere (Sphere.new ⟨⟨0,0,0⟩,⟨0,0,0⟩,0⟩ 1 1)

/-- Static unit sphere at `(0,5,0)`, material id 2. -/
def sphere_above : Shape := .sphere (Sphere.new ⟨⟨0,5,0⟩,⟨0,0,0⟩,0⟩ 1 2)

/-- The two-sphere scene used by the build/traversal witnesses, in insertion
order. -/
def cx_shapes : List Shape := [sphere_at_origin, sphere_above]

/-- A ray that, in exact arithmetic, touches the origin sphere exactly where
that sphere meets the `x = -1` face of the scene's merged bounding box: the
box test tightens the interval to `(1, 11)`, which the internal-node
traversal then hands to both children. -/
def cx_ray : Ray := ⟨⟨-2, -1/10, -1/10⟩, ⟨1, 1/10, 1/10⟩, 0⟩

/-- The node array `build_nodes` produces for `cx_shapes`. -/
def cx_nodes : List BvhSlab :=
  [.node 0 ⟨⟨-1,-1,-1⟩,⟨1,6,1⟩⟩ 1 2, .leaf 1 0, .leaf 2 1]

/-- The hit the tree traversal returns on `cx_ray` over the tightened
interval `(1, 11)` (the larger sphere root). -/
def cx_tree_rec : HitRecord :=
  { p := ⟨49/51, 10/51, 10/51⟩, normal := ⟨-49/51, -10/51, -10/51⟩
    t := 151/51, front_face := false, mat := 1, u := 0, v := 0 }

/-- Static sphere of radius `9/16` at the origin, material id 1.  All scene
constants below are small dyadic rationals chosen so that every binary64
operation the source performs on them — sums of squares, the discriminant
`81/256` (whose square root `9/16` is again dyadic), the root divisions
`(9/8)/(9/8) = 1` and `(9/4)/(9/8) = 2`, and the slab test's inverse
directions `1` and `4` — is exact, so the floating-point program follows the
same branches and produces the same hit parameters as this rational model. -/
def sphere_small_origin : Shape :=
  .sphere (Sphere.new ⟨⟨0,0,0⟩,⟨0,0,0⟩,0⟩ (9/16) 1)

/-- Static sphere of radius `9/16` at `(0,5,0)`, material id 2. -/
def sphere_small_above : Shape :=
  .sphere (Sphere.new ⟨⟨0,5,0⟩,⟨0,0,0⟩,0⟩ (9/16) 2)

/-- The two-sphere scene of the tree/list counterexample, in insertion
order. -/
def ex_shapes : List Shape := [sphere_small_origin, sphere_small_above]

/-- A ray that touches the origin sphere exactly where that sphere meets the
`x = -9/16` face of the scene's merged bounding box: its smaller sphere root
`t = 1` coincides with the box entry, so the tightened interval the tree
passes to the leaf re-rejects it.  Every quantity involved is dyadic and
exactly representable in binary64. -/
def ex_ray : Ray := ⟨⟨-25/16, -1/4, -1/4⟩, ⟨1, 1/4, 1/4⟩, 0⟩

/-- The node array `build_nodes` produces for `ex_shapes`. -/
def ex_nodes : List BvhSlab :=
  [.node 0 ⟨⟨-9/16,-9/16,-9/16⟩,⟨9/16,89/16,9/16⟩⟩ 1 2, .leaf 1 0, .leaf 2 1]

/-- The hit the tree traversal returns on `ex_ray` (the larger sphere root,
`t = 2`).  The parameter and point are dyadic and binary64-exact; the unit
normal `(p - center)/radius` is the exact real value, whose rounding in
binary64 feeds no comparison that could change a branch. -/
def ex_tree_rec : HitRecord :=
  { p := ⟨7/16, 1/4, 1/4⟩, normal := ⟨-7/9, -4/9, -4/9⟩
    t := 2, front_face := false, mat := 1, u := 0, v := 0 }


/-! ### Theorems -/

/-- The empty box is a left identity for merging: this justifies modelling
the source's fold `empty ⊔ b₁ ⊔ … ⊔ bₙ` as the rational fold starting from
`b₁` whenever the list is nonempty. -/
theorem box_betweenF_empty_left (b : BoundingBoxF) :
    BoundingBoxF.box_between BoundingBoxF.empty b = b := by
  obtain ⟨⟨lx, ly, lz⟩, ⟨ux, uy, uz⟩⟩ := b
  simp only [BoundingBoxF.box_between, BoundingBoxF.empty,
    Vec3F.most_minimum, Vec3F.most_maximum]
  cases lx <;> cases ly <;> cases lz <;> cases ux <;> cases uy <;> cases uz <;>
    simp [F.ble]

/-- One-step unfolding of the fueled traversal. -/
theorem BvhSlab.traverse_succ (suv : Vec3 → ℚ × ℚ) (fuel : ℕ) :
    BvhSlab.traverse suv (fuel+1) = traverse_step suv (BvhSlab.traverse suv fuel) :=
  rfl

/-- One-step unfolding of the fueled build recursion. -/
theorem BvhSlab.recurse_nodes_succ (fuel : ℕ) :
    BvhSlab.recurse_nodes (fuel+1) = recurse_step (BvhSlab.recurse_nodes fuel) :=
  rfl

/-- Sorting preserves the number of shapes. -/
theorem BvhSlab.sort_shapes_length (objs : List Shape) :
    (BvhSlab.sort_shapes objs).length = objs.length := by
  unfold BvhSlab.sort_shapes
  exact List.length_insertionSort _ _

/-- One-step unfolding of the layout predicate. -/
theorem layout_ok_succ (fuel : ℕ) :
    layout_ok (fuel+1) = layout_step (layout_ok fuel) := rfl

/-- Reading the middle section of a three-part append. -/
theorem append_middle_getElem {α : Type} (nodes app rest : List α) (j : ℕ)
    (hj : j < app.length) :
    ((nodes ++ app) ++ rest)[nodes.length + j]? = app[j]? := by
  rw [List.getElem?_append_left (by simp; omega),
      List.getElem?_append_right (by omega)]
  congr 1
  omega

/-- Structure of one `recurse_nodes` call on a sublist of `k ≥ 1` shapes
inserted at the end of `nodes`: it appends exactly `2k-1` slots, every
appended slot's `parent_index` is its own absolute position, and the
appended block is a well-laid-out subtree regardless of what is later
appended after it. -/
theorem recurse_nodes_structure :
    ∀ (k : ℕ) (objs : List Shape) (inds : List ℕ) (nodes : List BvhSlab)
      (fuel : ℕ),
      objs.length = k → 1 ≤ k → k ≤ inds.length → k ≤ fuel →
      ∃ app : List BvhSlab,
        BvhSlab.recurse_nodes fuel objs inds nodes nodes.length
          = some (nodes ++ app) ∧
        app.length = 2 * k - 1 ∧
        (∀ j s, app[j]? = some s → s.parent_index = nodes.length + j) ∧
        (∀ (rest : List BvhSlab) (fuel2 : ℕ), k ≤ fuel2 →
          layout_ok fuel2 ((nodes ++ app) ++ rest) nodes.length k = true) := by
  intro k
  induction k using Nat.strong_induction_on with
  | _ k IH =>
    intro objs inds nodes fuel hlen hk hinds hfuel
    obtain ⟨f, rfl⟩ : ∃ f, fuel = f + 1 := ⟨fuel - 1, by omega⟩
    match k, hk, hinds, hfuel, hlen, IH with
    | 1, _, hinds, _, hlen, _ =>
      rcases inds with _ | ⟨i0, inds2⟩
      · simp at hinds
      · refine ⟨[.leaf nodes.length i0], ?_, rfl, ?_, ?_⟩
        · rw [BvhSlab.recurse_nodes_succ]
          unfold recurse_step
          rw [hlen]
          simp [List.insertIdx_length_self]
        · intro j s hjs
          rcases j with _ | j
          · simp at hjs
            rw [← hjs]
            rfl
          · simp at hjs
        · intro rest fuel2 hf2
          obtain ⟨f2, rfl⟩ : ∃ f2, fuel2 = f2 + 1 := ⟨fuel2 - 1, by omega⟩
          rw [layout_ok_succ]
          unfold layout_step
          have hmid := append_middle_getElem nodes [BvhSlab.leaf nodes.length i0]
            rest 0 (by simp)
          simp only [Nat.add_zero] at hmid
          rw [hmid]
          rfl
    | (m+2), _, hinds, hfuel, hlen, IH =>
      have hmid1 : 1 ≤ (m + 2) / 2 := by omega
      have hmidlt : (m + 2) / 2 < m + 2 := by omega
      have hrlen1 : 1 ≤ (m + 2) - (m + 2) / 2 := by omega
      have hrlt : (m + 2) - (m + 2) / 2 < m + 2 := by omega
      have hTakeObjs : (objs.take ((m+2)/2)).length = (m+2)/2 := by
        rw [List.length_take, hlen]
        omega
      have hTakeInds : ((m+2)/2) ≤ (inds.take ((m+2)/2)).length := by
        rw [List.length_take]
        omega
      have hDropObjs : (objs.drop ((m+2)/2)).length = (m+2) - (m+2)/2 := by
        rw [List.length_drop, hlen]
      have hDropInds : ((m+2) - (m+2)/2) ≤ (inds.drop ((m+2)/2)).length := by
        rw [List.length_drop]
        omega
      set mid : ℕ := (m + 2) / 2 with hmid_def
      set bbox : BoundingBox := merged_box (objs.map Shape.bounding_box) with hbbox_def
      set nodeSlab : BvhSlab :=
        BvhSlab.node nodes.length bbox (nodes.length + 1)
          (nodes.length + 1 + (2 * mid - 1)) with hslab_def
      set nodes1 : List BvhSlab := nodes ++ [nodeSlab] with hnodes1_def
      have hn1len : nodes1.length = nodes.length + 1 := by simp [hnodes1_def]
      obtain ⟨appL, hL1, hL2, hL3, hL4⟩ :=
        IH mid hmidlt (objs.take mid) (inds.take mid) nodes1 f hTakeObjs hmid1
          hTakeInds (by omega)
      obtain ⟨appR, hR1, hR2, hR3, hR4⟩ :=
        IH ((m+2) - mid) hrlt (objs.drop mid) (inds.drop mid) (nodes1 ++ appL) f
          hDropObjs hrlen1 hDropInds (by omega)
      have hn2len : (nodes1 ++ appL).length = nodes.length + 1 + (2 * mid - 1) := by
        simp only [List.length_append, hn1len, hL2]
      refine ⟨nodeSlab :: (appL ++ appR), ?_, ?_, ?_, ?_⟩
      · rw [BvhSlab.recurse_nodes_succ]
        unfold recurse_step
        rw [hlen]
        dsimp only
        rw [if_pos (show (m+2)/2 ≤ inds.length by omega),
            if_pos (le_refl nodes.length), List.insertIdx_length_self]
        rw [hn1len] at hL1
        rw [← hmid_def, ← hbbox_def, ← hslab_def, ← hnodes1_def, hL1]
        rw [hn2len] at hR1
        dsimp only
        rw [hR1]
        congr 1
        simp [hnodes1_def, List.append_assoc]
      · simp only [List.length_cons, List.length_append, hL2, hR2]
        omega
      · intro j s hjs
        rcases j with _ | j
        · simp only [List.getElem?_cons_zero, Option.some_inj] at hjs
          rw [← hjs, hslab_def]
          rfl
        · simp only [List.getElem?_cons_succ] at hjs
          by_cases hcase : j < appL.length
          · rw [List.getElem?_append_left hcase] at hjs
            have := hL3 j s hjs
            rw [hn1len] at this
            omega
          · rw [List.getElem?_append_right (le_of_not_lt hcase)] at hjs
            have := hR3 (j - appL.length) s hjs
            rw [hn2len, hL2] at this
            have hjge : appL.length ≤ j := le_of_not_lt hcase
            rw [hL2] at hjge
            omega
      · intro rest fuel2 hf2
        obtain ⟨f2, rfl⟩ : ∃ f2, fuel2 = f2 + 1 := ⟨fuel2 - 1, by omega⟩
        rw [layout_ok_succ]
        unfold layout_step
        have hacc : ((nodes ++ (nodeSlab :: (appL ++ appR))) ++ rest)[nodes.length]?
            = some nodeSlab := by
          have h0 := append_middle_getElem nodes (nodeSlab :: (appL ++ appR)) rest 0
            (by simp)
          simp only [Nat.add_zero] at h0
          rw [h0]
          simp
        rw [hacc]
        dsimp only
        have hLlay := hL4 (appR ++ rest) f2 (by omega)
        have hRlay := hR4 rest f2 (by omega)
        have heqL : ((nodes1 ++ appL) ++ (appR ++ rest))
            = ((nodes ++ (nodeSlab :: (appL ++ appR))) ++ rest) := by
          simp [hnodes1_def, List.append_assoc]
        rw [heqL, hn1len] at hLlay
        have heqR : (((nodes1 ++ appL) ++ appR) ++ rest)
            = ((nodes ++ (nodeSlab :: (appL ++ appR))) ++ rest) := by
          simp [hnodes1_def, List.append_assoc]
        rw [heqR, hn2len] at hRlay
        simp only [← hmid_def, hLlay, hRlay, Bool.and_true]
        simp

/-- Axis coordinates of a ray point. -/
theorem ray_at_axis (r : Ray) (t : ℚ) (ax : ℕ) :
    (r.at t).axis ax = r.origin.axis ax + r.direction.axis ax * t := by
  rcases ax with _ | _ | _ | n <;> rfl

/-- A point of the ray inside an axis slab has its parameter between the two
slab times (in one order or the other). -/
theorem slab_axis_bounds (lo hi o d t : ℚ) (hd : d ≠ 0)
    (h1 : lo ≤ o + d * t) (h2 : o + d * t ≤ hi) :
    ((lo - o) * (1/d) ≤ t ∧ t ≤ (hi - o) * (1/d)) ∨
    ((hi - o) * (1/d) ≤ t ∧ t ≤ (lo - o) * (1/d)) := by
  rcases lt_or_gt_of_ne hd with hneg | hpos
  · right
    have hinvneg : 1/d < 0 := one_div_neg.mpr hneg
    have e1 : (d * t) * (1/d) = t := by field_simp
    constructor
    · nlinarith [mul_le_mul_of_nonpos_right h2 (le_of_lt hinvneg)]
    · nlinarith [mul_le_mul_of_nonpos_right h1 (le_of_lt hinvneg)]
  · left
    have hinvpos : 0 < 1/d := one_div_pos.mpr hpos
    have e1 : (d * t) * (1/d) = t := by field_simp
    constructor
    · nlinarith [mul_le_mul_of_nonneg_right h1 (le_of_lt hinvpos)]
    · nlinarith [mul_le_mul_of_nonneg_right h2 (le_of_lt hinvpos)]

/-- Strict version of `slab_axis_bounds`. -/
theorem slab_axis_bounds_strict (lo hi o d t : ℚ) (hd : d ≠ 0)
    (h1 : lo < o + d * t) (h2 : o + d * t < hi) :
    ((lo - o) * (1/d) < t ∧ t < (hi - o) * (1/d)) ∨
    ((hi - o) * (1/d) < t ∧ t < (lo - o) * (1/d)) := by
  rcases lt_or_gt_of_ne hd with hneg | hpos
  · right
    have hinvneg : 1/d < 0 := one_div_neg.mpr hneg
    have e1 : (d * t) * (1/d) = t := by field_simp
    constructor
    · nlinarith [mul_lt_mul_of_neg_right h2 hinvneg]
    · nlinarith [mul_lt_mul_of_neg_right h1 hinvneg]
  · left
    have hinvpos : 0 < 1/d := one_div_pos.mpr hpos
    have e1 : (d * t) * (1/d) = t := by field_simp
    constructor
    · nlinarith [mul_lt_mul_of_pos_right h1 hinvpos]
    · nlinarith [mul_lt_mul_of_pos_right h2 hinvpos]

/-- One axis step keeps the original bounds and never collapses below them:
a successful step stays inside `[t_min, t_max]` and is nonempty. -/
theorem axis_step_bounds (b : BoundingBox) (r : Ray) (t_min t_max : ℚ)
    (ax : ℕ) (cur out : ℚ × ℚ)
    (h1 : t_min ≤ cur.1) (h2 : cur.2 ≤ t_max)
    (hstep : BoundingBox.axis_step b r t_min t_max ax cur = some out) :
    t_min ≤ out.1 ∧ out.2 ≤ t_max ∧ out.1 < out.2 := by
  unfold BoundingBox.axis_step at hstep
  dsimp only at hstep
  split_ifs at hstep with g1 g2 g3 g4 g5 g6 <;>
    first
    | exact Option.noConfusion hstep
    | · obtain rfl := Option.some.inj hstep
        refine ⟨?_, ?_, by dsimp only; linarith [not_le.mp (by assumption : ¬_)]⟩ <;>
          dsimp only <;> linarith

/-- A successful axis step keeps every parameter whose ray point lies inside
that axis's slab, provided it was inside the running interval. -/
theorem axis_step_keeps (b : BoundingBox) (r : Ray) (t_min t_max : ℚ)
    (ax : ℕ) (cur out : ℚ × ℚ) (t : ℚ)
    (hd : r.direction.axis ax ≠ 0)
    (hlo : b.lower.axis ax ≤ (r.at t).axis ax)
    (hhi : (r.at t).axis ax ≤ b.upper.axis ax)
    (hc1 : cur.1 ≤ t) (hc2 : t ≤ cur.2)
    (hstep : BoundingBox.axis_step b r t_min t_max ax cur = some out) :
    out.1 ≤ t ∧ t ≤ out.2 := by
  rw [ray_at_axis] at hlo hhi
  have hb := slab_axis_bounds (b.lower.axis ax) (b.upper.axis ax)
    (r.origin.axis ax) (r.direction.axis ax) t hd hlo hhi
  unfold BoundingBox.axis_step at hstep
  dsimp only at hstep
  split_ifs at hstep with g1 g2 g3 g4 g5 g6 <;>
    first
    | exact Option.noConfusion hstep
    | · obtain rfl := Option.some.inj hstep
        constructor <;> dsimp only <;> rcases hb with ⟨hb1, hb2⟩ | ⟨hb1, hb2⟩ <;>
          linarith

/-- Strict variant: a parameter strictly inside the axis slab and strictly
inside the running interval survives the axis step, which cannot fail. -/
theorem axis_step_strict (b : BoundingBox) (r : Ray) (t_min t_max : ℚ)
    (ax : ℕ) (cur : ℚ × ℚ) (t : ℚ)
    (hd : r.direction.axis ax ≠ 0)
    (hlo : b.lower.axis ax < (r.at t).axis ax)
    (hhi : (r.at t).axis ax < b.upper.axis ax)
    (hc1 : cur.1 < t) (hc2 : t < cur.2) :
    ∃ out, BoundingBox.axis_step b r t_min t_max ax cur = some out ∧
      out.1 < t ∧ t < out.2 := by
  rw [ray_at_axis] at hlo hhi
  have hb := slab_axis_bounds_strict (b.lower.axis ax) (b.upper.axis ax)
    (r.origin.axis ax) (r.direction.axis ax) t hd hlo hhi
  unfold BoundingBox.axis_step
  dsimp only
  split_ifs with g1 g2 g3 g4 g5 g6 <;>
    first
    | · exfalso
        rcases hb with ⟨hb1, hb2⟩ | ⟨hb1, hb2⟩ <;>
          revert g1 <;> intro g1 <;>
          first
          | (revert g2; intro g2; linarith [le_of_not_lt (by assumption : ¬_)])
          | linarith
    | exact ⟨_, rfl, by rcases hb with ⟨hb1, hb2⟩ | ⟨hb1, hb2⟩ <;>
        constructor <;> dsimp only <;> linarith⟩

/-- Claim C2, amended: for rays with no zero direction component, the slab
test's surviving guarantees.  On success the returned interval lies inside
the original `[tMin, tMax]`, is nonempty, and contains every parameter in
`(tMin, tMax)` whose ray point lies (componentwise) inside the box; `None`
is returned only when no parameter in `(tMin, tMax)` puts the ray strictly
inside the box.  (The per-axis comparisons are made against the ORIGINAL
`tMin`/`tMax`, not the running interval — see the counterexample theorem —
so the returned endpoints are NOT the max entry / min exit.) -/
theorem intersects_conservative (b : BoundingBox) (r : Ray) (tmin tmax : ℚ)
    (hx : r.direction.x ≠ 0) (hy : r.direction.y ≠ 0)
    (hz : r.direction.z ≠ 0) :
    (∀ ir : IntersectionRecord, b.intersects r tmin tmax = some ir →
      tmin ≤ ir.tmin ∧ ir.tmax ≤ tmax ∧ ir.tmin < ir.tmax ∧
      (∀ t, tmin < t → t < tmax → in_box b (r.at t) →
        ir.tmin ≤ t ∧ t ≤ ir.tmax)) ∧
    (b.intersects r tmin tmax = none →
      ∀ t, tmin < t → t < tmax → ¬ strictly_in_box b (r.at t)) := by
  constructor
  · intro ir hir
    unfold BoundingBox.intersects at hir
    cases h0 : BoundingBox.axis_step b r tmin tmax 0 (tmin, tmax) with
    | none => rw [h0] at hir; exact Option.noConfusion hir
    | some c0 =>
      rw [h0] at hir
      dsimp only at hir
      cases h1 : BoundingBox.axis_step b r tmin tmax 1 c0 with
      | none => rw [h1] at hir; exact Option.noConfusion hir
      | some c1 =>
        rw [h1] at hir
        dsimp only at hir
        cases h2 : BoundingBox.axis_step b r tmin tmax 2 c1 with
        | none => rw [h2] at hir; exact Option.noConfusion hir
        | some c2 =>
          rw [h2] at hir
          dsimp only at hir
          obtain rfl : (⟨c2.1, c2.2⟩ : IntersectionRecord) = ir :=
            Option.some.inj hir
          have b0 := axis_step_bounds b r tmin tmax 0 (tmin, tmax) c0
            (le_refl _) (le_refl _) h0
          have b1 := axis_step_bounds b r tmin tmax 1 c0 c1 b0.1 b0.2.1 h1
          have b2 := axis_step_bounds b r tmin tmax 2 c1 c2 b1.1 b1.2.1 h2
          refine ⟨b2.1, b2.2.1, b2.2.2, ?_⟩
          intro t ht1 ht2 hin
          have k0 := axis_step_keeps b r tmin tmax 0 (tmin, tmax) c0 t hx
            hin.1 hin.2.1 (le_of_lt ht1) (le_of_lt ht2) h0
          have k1 := axis_step_keeps b r tmin tmax 1 c0 c1 t hy
            hin.2.2.1 hin.2.2.2.1 k0.1 k0.2 h1
          have k2 := axis_step_keeps b r tmin tmax 2 c1 c2 t hz
            hin.2.2.2.2.1 hin.2.2.2.2.2 k1.1 k1.2 h2
          exact k2
  · intro hnone t ht1 ht2 hstrict
    obtain ⟨c0, h0, s0a, s0b⟩ := axis_step_strict b r tmin tmax 0 (tmin, tmax)
      t hx hstrict.1 hstrict.2.1 ht1 ht2
    obtain ⟨c1, h1, s1a, s1b⟩ := axis_step_strict b r tmin tmax 1 c0 t hy
      hstrict.2.2.1 hstrict.2.2.2.1 s0a s0b
    obtain ⟨c2, h2, s2a, s2b⟩ := axis_step_strict b r tmin tmax 2 c1 t hz
      hstrict.2.2.2.2.1 hstrict.2.2.2.2.2 s1a s1b
    unfold BoundingBox.intersects at hnone
    rw [h0] at hnone
    dsimp only at hnone
    rw [h1] at hnone
    dsimp only at hnone
    rw [h2] at hnone
    dsimp only at hnone
    exact Option.noConfusion hnone

/-- Reorienting the stored normal does not change the hit parameter. -/
theorem HitRecord.set_face_normal_t (rec : HitRecord) (ray : Ray) (n : Vec3) :
    (rec.set_face_normal ray n).t = rec.t := rfl



/-- Nonnegativity of the embedded square root. -/
theorem rat_sqrt_nonneg (q : ℚ) : 0 ≤ rat_sqrt q := by
  unfold rat_sqrt
  apply div_nonneg <;> exact Nat.cast_nonneg _

/-- Squared length is a sum of squares. -/
theorem length_squared_nonneg (v : Vec3) : 0 ≤ v.length_squared := by
  unfold Vec3.length_squared
  have hx := mul_self_nonneg v.x
  have hy := mul_self_nonneg v.y
  have hz := mul_self_nonneg v.z
  linarith

namespace Sphere

/-- Unfolding `Sphere::hit` in terms of the named intermediate values. -/
theorem hit_eq (suv : Vec3 → ℚ × ℚ) (s : Sphere) (r : Ray) (tmin tmax : ℚ) :
    s.hit suv r tmin tmax =
      (if discriminant s r < 0 then none
       else
        if (root1 s r ≤ tmin ∨ tmax ≤ root1 s r) ∧
           (root2 s r ≤ tmin ∨ tmax ≤ root2 s r) then none
        else
          let root := if root1 s r ≤ tmin ∨ tmax ≤ root1 s r then root2 s r
                      else root1 s r
          let p := r.at root
          let normal := (p - s.movement.at r.time).sdiv s.radius
          let uv := suv normal
          some (HitRecord.set_face_normal
            { p := p, normal := normal, t := root, front_face := false
              mat := s.mat, u := uv.1, v := uv.2 } r normal)) := by
  rfl

/-- The two candidate roots are ordered (`a` is a sum of squares, the
embedded square root is nonnegative). -/
theorem root1_le_root2 (s : Sphere) (r : Ray) : root1 s r ≤ root2 s r := by
  unfold root1 root2
  rcases eq_or_lt_of_le (length_squared_nonneg r.direction) with h | h
  · unfold hit_a
    rw [← h]
    simp
  · have hs := rat_sqrt_nonneg (discriminant s r)
    have ha : (0:ℚ) < hit_a s r := h
    exact (div_le_div_iff_of_pos_right ha).mpr (by linarith)

end Sphere

/-- The parameter stored in the sphere hit record is the accepted root. -/
theorem Sphere.mk_hit_t (suv : Vec3 → ℚ × ℚ) (s : Sphere) (r : Ray)
    (root : ℚ) : (Sphere.mk_hit suv s r root).t = root := rfl

/-- Unfolding `Sphere::hit` through `mk_hit`. -/
theorem Sphere.hit_eq_mk (suv : Vec3 → ℚ × ℚ) (s : Sphere) (r : Ray)
    (tmin tmax : ℚ) :
    s.hit suv r tmin tmax =
      (if Sphere.discriminant s r < 0 then none
       else if (Sphere.root1 s r ≤ tmin ∨ tmax ≤ Sphere.root1 s r) ∧
               (Sphere.root2 s r ≤ tmin ∨ tmax ≤ Sphere.root2 s r) then none
       else some (Sphere.mk_hit suv s r
         (if Sphere.root1 s r ≤ tmin ∨ tmax ≤ Sphere.root1 s r then
           Sphere.root2 s r
          else Sphere.root1 s r))) := rfl

/-- Case analysis of a successful sphere hit: the discriminant is
nonnegative and the record is built from the smaller root when it is
strictly inside the interval, else from the larger root. -/
theorem Sphere.hit_cases (suv : Vec3 → ℚ × ℚ) (s : Sphere) (r : Ray)
    (tmin tmax : ℚ) (rec : HitRecord) :
    s.hit suv r tmin tmax = some rec ↔
      ¬(Sphere.discriminant s r < 0) ∧
      ((¬(Sphere.root1 s r ≤ tmin ∨ tmax ≤ Sphere.root1 s r) ∧
          rec = Sphere.mk_hit suv s r (Sphere.root1 s r)) ∨
       ((Sphere.root1 s r ≤ tmin ∨ tmax ≤ Sphere.root1 s r) ∧
        ¬(Sphere.root2 s r ≤ tmin ∨ tmax ≤ Sphere.root2 s r) ∧
          rec = Sphere.mk_hit suv s r (Sphere.root2 s r))) := by
  rw [Sphere.hit_eq_mk]
  split_ifs with h1 h2 hA
  · simp [h1]
  · constructor
    · intro hcontr
      simp at hcontr
    · rintro ⟨_, ⟨hA2, _⟩ | ⟨_, hB, _⟩⟩
      · exact absurd h2.1 hA2
      · exact absurd h2.2 hB
  · constructor
    · intro hsome
      exact ⟨h1, Or.inr ⟨hA, fun hB => h2 ⟨hA, hB⟩, (Option.some.inj hsome).symm⟩⟩
    · rintro ⟨_, ⟨hA2, _⟩ | ⟨_, _, rfl⟩⟩
      · exact absurd hA hA2
      · rfl
  · constructor
    · intro hsome
      exact ⟨h1, Or.inl ⟨hA, (Option.some.inj hsome).symm⟩⟩
    · rintro ⟨_, ⟨_, rfl⟩ | ⟨hA2, _, _⟩⟩
      · rfl
      · exact absurd hA2 hA

/-- A successful sphere hit lies strictly inside the query interval. -/
theorem Sphere.hit_t_bounds (suv : Vec3 → ℚ × ℚ) (s : Sphere) (r : Ray)
    (tmin tmax : ℚ) (rec : HitRecord)
    (h : s.hit suv r tmin tmax = some rec) :
    tmin < rec.t ∧ rec.t < tmax := by
  rw [Sphere.hit_cases] at h
  obtain ⟨_, ⟨hA, rfl⟩ | ⟨_, hB, rfl⟩⟩ := h
  · push_neg at hA
    rw [Sphere.mk_hit_t]
    exact hA
  · push_neg at hB
    rw [Sphere.mk_hit_t]
    exact hB

/-- Shrinking the upper bound to any value still above the accepted root
returns the same sphere hit. -/
theorem Sphere.hit_shrink (suv : Vec3 → ℚ × ℚ) (s : Sphere) (r : Ray)
    (tmin tmax cl : ℚ) (rec : HitRecord)
    (h : s.hit suv r tmin tmax = some rec) (h1 : rec.t < cl) (h2 : cl ≤ tmax) :
    s.hit suv r tmin cl = some rec := by
  rw [Sphere.hit_cases] at h ⊢
  obtain ⟨hd, ⟨hA, rfl⟩ | ⟨hA, hB, rfl⟩⟩ := h
  · push_neg at hA
    rw [Sphere.mk_hit_t] at h1
    exact ⟨hd, Or.inl ⟨by push_neg; exact ⟨hA.1, h1⟩, rfl⟩⟩
  · push_neg at hB
    rw [Sphere.mk_hit_t] at h1
    refine ⟨hd, Or.inr ⟨?_, by push_neg; exact ⟨hB.1, h1⟩, rfl⟩⟩
    rcases hA with hA | hA
    · exact Or.inl hA
    · exact Or.inr (le_trans h2 hA)

/-- Widening the interval preserves hit-existence for spheres, with a hit
parameter no larger than before (the smaller root may become available). -/
theorem Sphere.hit_widen (suv : Vec3 → ℚ × ℚ) (s : Sphere) (r : Ray)
    (a b tmin tmax : ℚ) (rec : HitRecord)
    (h : s.hit suv r a b = some rec) (h1 : tmin ≤ a) (h2 : b ≤ tmax) :
    ∃ rec2, s.hit suv r tmin tmax = some rec2 ∧ rec2.t ≤ rec.t := by
  rw [Sphere.hit_cases] at h
  obtain ⟨hd, ⟨hA, rfl⟩ | ⟨hA, hB, rfl⟩⟩ := h
  · push_neg at hA
    refine ⟨Sphere.mk_hit suv s r (Sphere.root1 s r), ?_, le_refl _⟩
    rw [Sphere.hit_cases]
    exact ⟨hd, Or.inl ⟨by push_neg; exact ⟨by linarith [hA.1], by linarith [hA.2]⟩, rfl⟩⟩
  · push_neg at hB
    by_cases hA2 : Sphere.root1 s r ≤ tmin ∨ tmax ≤ Sphere.root1 s r
    · refine ⟨Sphere.mk_hit suv s r (Sphere.root2 s r), ?_, le_refl _⟩
      rw [Sphere.hit_cases]
      exact ⟨hd, Or.inr ⟨hA2,
        by push_neg; exact ⟨by linarith [hB.1], by linarith [hB.2]⟩, rfl⟩⟩
    · refine ⟨Sphere.mk_hit suv s r (Sphere.root1 s r), ?_, ?_⟩
      · rw [Sphere.hit_cases]
        exact ⟨hd, Or.inl ⟨hA2, rfl⟩⟩
      · rw [Sphere.mk_hit_t, Sphere.mk_hit_t]
        exact Sphere.root1_le_root2 s r

namespace Quad

/-- Unfolding `Quad::hit` in terms of the named intermediate values. -/
theorem hit_unfold (qd : Quad) (r : Ray) (tmin tmax : ℚ) :
    qd.hit r tmin tmax =
      (if |dot qd.normal r.direction| < 1/100000000 then none
       else if tmin > plane_t qd r ∨ plane_t qd r > tmax then none
       else
        match is_interior (alpha qd r) (beta qd r) with
        | none => none
        | some (u, v) =>
          some (HitRecord.set_face_normal
            { p := r.at (plane_t qd r), normal := qd.normal, t := plane_t qd r
              front_face := false, mat := qd.mat, u := u, v := v } r qd.normal)) := by
  rfl

end Quad

/-- Scanning past a shape that hits updates the running state to that hit. -/
theorem list_hit_aux_cons_some (suv : Vec3 → ℚ × ℚ) (s : Shape)
    (rest : List Shape) (r : Ray) (tmin closest : ℚ) (acc : Option HitRecord)
    (lr : HitRecord) (h : s.hit suv r tmin closest = some lr) :
    list_hit_aux suv (s :: rest) r tmin closest acc
      = list_hit_aux suv rest r tmin lr.t (some lr) := by
  simp only [list_hit_aux, h]

/-- Scanning past a shape that misses leaves the running state unchanged. -/
theorem list_hit_aux_cons_none (suv : Vec3 → ℚ × ℚ) (s : Shape)
    (rest : List Shape) (r : Ray) (tmin closest : ℚ) (acc : Option HitRecord)
    (h : s.hit suv r tmin closest = none) :
    list_hit_aux suv (s :: rest) r tmin closest acc
      = list_hit_aux suv rest r tmin closest acc := by
  simp only [list_hit_aux, h]

/-- The parameter stored in the quad hit record is the plane parameter. -/
theorem Quad.hit_record_t (qd : Quad) (r : Ray) :
    (Quad.hit_record qd r).t = Quad.plane_t qd r := rfl

/-- `is_interior` can only return its own inputs. -/
theorem Quad.is_interior_out (a b : ℚ) (uv : ℚ × ℚ)
    (h : Quad.is_interior a b = some uv) : uv = (a, b) := by
  unfold Quad.is_interior at h
  split_ifs at h
  exact (Option.some.inj h).symm

/-- Case analysis of a successful quad hit: non-parallel denominator, plane
parameter inside the CLOSED interval, both planar coordinates in `[0,1)`,
and the canonical record. -/
theorem Quad.hit_record_cases (qd : Quad) (r : Ray) (tmin tmax : ℚ)
    (rec : HitRecord) :
    qd.hit r tmin tmax = some rec ↔
      ¬(|dot qd.normal r.direction| < 1/100000000) ∧
      (tmin ≤ Quad.plane_t qd r ∧ Quad.plane_t qd r ≤ tmax) ∧
      (0 ≤ Quad.alpha qd r ∧ Quad.alpha qd r < 1) ∧
      (0 ≤ Quad.beta qd r ∧ Quad.beta qd r < 1) ∧
      rec = Quad.hit_record qd r := by
  rw [Quad.hit_unfold]
  split_ifs with h1 h2
  · constructor
    · intro hcontr
      simp at hcontr
    · rintro ⟨hp, _⟩
      exact absurd h1 hp
  · constructor
    · intro hcontr
      simp at hcontr
    · rintro ⟨_, ⟨ht1, ht2⟩, _⟩
      rcases h2 with h | h <;> linarith
  · push_neg at h2
    cases hI : Quad.is_interior (Quad.alpha qd r) (Quad.beta qd r) with
    | none =>
      have hc : ¬(0 ≤ Quad.alpha qd r ∧ Quad.alpha qd r < 1) ∨
          ¬(0 ≤ Quad.beta qd r ∧ Quad.beta qd r < 1) := by
        unfold Quad.is_interior at hI
        split_ifs at hI with hc2
        exact hc2
      constructor
      · intro hcontr
        simp at hcontr
      · rintro ⟨_, _, hα, hβ, _⟩
        rcases hc with hc | hc <;> tauto
    | some uv =>
      obtain rfl := Quad.is_interior_out _ _ _ hI
      have hc : (0 ≤ Quad.alpha qd r ∧ Quad.alpha qd r < 1) ∧
          (0 ≤ Quad.beta qd r ∧ Quad.beta qd r < 1) := by
        unfold Quad.is_interior at hI
        split_ifs at hI with hc2
        push_neg at hc2
        exact hc2
      constructor
      · intro hsome
        exact ⟨h1, h2, hc.1, hc.2, (Option.some.inj hsome).symm⟩
      · rintro ⟨_, _, _, _, rfl⟩
        rfl

/-- An accepted quad hit is reproduced unchanged on any interval that still
contains its parameter. -/
theorem Quad.hit_interval_change (qd : Quad) (r : Ray) (a b a2 b2 : ℚ)
    (rec : HitRecord) (h : qd.hit r a b = some rec)
    (h1 : a2 ≤ rec.t) (h2 : rec.t ≤ b2) : qd.hit r a2 b2 = some rec := by
  rw [Quad.hit_record_cases] at h ⊢
  obtain ⟨hp, _, hα, hβ, rfl⟩ := h
  rw [Quad.hit_record_t] at h1 h2
  exact ⟨hp, ⟨h1, h2⟩, hα, hβ, rfl⟩

/-- Any accepted shape hit lies within the query interval (closed bounds:
the quad test is closed, the sphere test strict). -/
theorem Shape.t_bounds (suv : Vec3 → ℚ × ℚ) (sh : Shape) (r : Ray)
    (a b : ℚ) (rec : HitRecord) (h : sh.hit suv r a b = some rec) :
    a ≤ rec.t ∧ rec.t ≤ b := by
  cases sh with
  | sphere s =>
    have hb := Sphere.hit_t_bounds suv s r a b rec h
    exact ⟨le_of_lt hb.1, le_of_lt hb.2⟩
  | quad q =>
    have hq : q.hit r a b = some rec := h
    rw [Quad.hit_record_cases] at hq
    obtain ⟨_, ⟨h1, h2⟩, _, _, rfl⟩ := hq
    rw [Quad.hit_record_t]
    exact ⟨h1, h2⟩

/-- Shrinking the upper bound to anything still above the accepted hit
keeps a hit with no larger parameter. -/
theorem Shape.shrink (suv : Vec3 → ℚ × ℚ) (sh : Shape) (r : Ray)
    (tmin tmax cl : ℚ) (rec : HitRecord)
    (h : sh.hit suv r tmin tmax = some rec) (h1 : rec.t < cl)
    (h2 : cl ≤ tmax) :
    ∃ rec2, sh.hit suv r tmin cl = some rec2 ∧ rec2.t ≤ rec.t := by
  cases sh with
  | sphere s => exact ⟨rec, Sphere.hit_shrink suv s r tmin tmax cl rec h h1 h2,
      le_refl _⟩
  | quad q =>
    have hq : q.hit r tmin tmax = some rec := h
    have hb := (Shape.t_bounds suv (.quad q) r tmin tmax rec h).1
    exact ⟨rec, Quad.hit_interval_change q r tmin tmax tmin cl rec hq hb
      (le_of_lt h1), le_refl _⟩

/-- Widening the interval preserves hit-existence, with a hit parameter no
larger than before. -/
theorem Shape.widen (suv : Vec3 → ℚ × ℚ) (sh : Shape) (r : Ray)
    (a b tmin tmax : ℚ) (rec : HitRecord)
    (h : sh.hit suv r a b = some rec) (h1 : tmin ≤ a) (h2 : b ≤ tmax) :
    ∃ rec2, sh.hit suv r tmin tmax = some rec2 ∧ rec2.t ≤ rec.t := by
  cases sh with
  | sphere s => exact Sphere.hit_widen suv s r a b tmin tmax rec h h1 h2
  | quad q =>
    have hq : q.hit r a b = some rec := h
    have hb := Shape.t_bounds suv (.quad q) r a b rec h
    exact ⟨rec, Quad.hit_interval_change q r a b tmin tmax rec hq
      (le_trans h1 hb.1) (le_trans hb.2 h2), le_refl _⟩

/-- Invariant of the linear scan: with an accumulator bounded by the running
`closest`, any result is bounded by `closest`, and a `some` accumulator
guarantees a `some` result. -/
theorem list_hit_aux_invariant (suv : Vec3 → ℚ × ℚ) (r : Ray) (tmin : ℚ) :
    ∀ (l : List Shape) (closest : ℚ) (acc : Option HitRecord),
      (∀ a, acc = some a → a.t ≤ closest) →
      (∀ o, list_hit_aux suv l r tmin closest acc = some o → o.t ≤ closest) ∧
      (∀ a, acc = some a →
        ∃ o, list_hit_aux suv l r tmin closest acc = some o ∧ o.t ≤ closest) := by
  intro l
  induction l with
  | nil =>
    intro closest acc hacc
    constructor
    · intro o ho
      exact hacc o ho
    · intro a ha
      exact ⟨a, ha, hacc a ha⟩
  | cons s rest IH =>
    intro closest acc hacc
    cases hh : s.hit suv r tmin closest with
    | some lr =>
      have hlr := (Shape.t_bounds suv s r tmin closest lr hh).2
      rw [list_hit_aux_cons_some suv s rest r tmin closest acc lr hh]
      have IH2 := IH lr.t (some lr)
        (fun a ha => le_of_eq (congrArg HitRecord.t (Option.some.inj ha).symm))
      constructor
      · intro o ho
        exact le_trans (IH2.1 o ho) hlr
      · intro a _
        obtain ⟨o, ho, hle⟩ := IH2.2 lr rfl
        exact ⟨o, ho, le_trans hle hlr⟩
    | none =>
      rw [list_hit_aux_cons_none suv s rest r tmin closest acc hh]
      exact IH closest acc hacc

/-- If some member shape hits on the full interval, the linear scan returns
a hit no farther than that shape's hit. -/
theorem list_hit_aux_finds (suv : Vec3 → ℚ × ℚ) (r : Ray) (tmin tmax : ℚ)
    (s : Shape) (rec : HitRecord) (hs : s.hit suv r tmin tmax = some rec) :
    ∀ (l : List Shape) (closest : ℚ) (acc : Option HitRecord),
      s ∈ l → closest ≤ tmax →
      ((acc = none ∧ closest = tmax) ∨ (∃ a, acc = some a ∧ a.t ≤ closest)) →
      ∃ o, list_hit_aux suv l r tmin closest acc = some o ∧ o.t ≤ rec.t := by
  intro l
  induction l with
  | nil =>
    intro closest acc hmem
    exact absurd hmem (List.not_mem_nil s)
  | cons hd rest IH =>
    intro closest acc hmem hcl hinv
    have haccb : ∀ a, acc = some a → a.t ≤ closest := by
      intro a ha
      rcases hinv with ⟨hn, _⟩ | ⟨a2, ha2, hb2⟩
      · rw [hn] at ha
        exact Option.noConfusion ha
      · rw [ha2] at ha
        rw [← Option.some.inj ha]
        exact hb2
    rcases List.mem_cons.mp hmem with rfl | hmem2
    · -- the head is the hitting shape
      by_cases hlt : rec.t < closest
      · obtain ⟨rec2, hh2, hle2⟩ :=
          Shape.shrink suv s r tmin tmax closest rec hs hlt hcl
        rw [list_hit_aux_cons_some suv s rest r tmin closest acc rec2 hh2]
        obtain ⟨o, ho, hob⟩ :=
          (list_hit_aux_invariant suv r tmin rest rec2.t (some rec2)
            (fun a ha =>
              le_of_eq (congrArg HitRecord.t (Option.some.inj ha).symm))).2
            rec2 rfl
        exact ⟨o, ho, le_trans hob hle2⟩
      · -- closest ≤ rec.t
        push_neg at hlt
        rcases hinv with ⟨hn, hct⟩ | ⟨a, ha, hb⟩
        · -- untouched accumulator: the head is queried on the original interval
          rw [hct, hn]
          rw [list_hit_aux_cons_some suv s rest r tmin tmax none rec hs]
          obtain ⟨o, ho, hob⟩ :=
            (list_hit_aux_invariant suv r tmin rest rec.t (some rec)
              (fun a2 ha2 =>
                le_of_eq (congrArg HitRecord.t (Option.some.inj ha2).symm))).2
              rec rfl
          exact ⟨o, ho, hob⟩
        · -- a best hit at most `closest ≤ rec.t` already exists
          cases hh : s.hit suv r tmin closest with
          | some lr =>
            have hlr := (Shape.t_bounds suv s r tmin closest lr hh).2
            rw [list_hit_aux_cons_some suv s rest r tmin closest acc lr hh]
            obtain ⟨o, ho, hob⟩ :=
              (list_hit_aux_invariant suv r tmin rest lr.t (some lr)
                (fun a2 ha2 =>
                  le_of_eq (congrArg HitRecord.t (Option.some.inj ha2).symm))).2
                lr rfl
            exact ⟨o, ho, le_trans hob (le_trans hlr hlt)⟩
          | none =>
            rw [list_hit_aux_cons_none suv s rest r tmin closest acc hh]
            obtain ⟨o, ho, hob⟩ :=
              (list_hit_aux_invariant suv r tmin rest closest acc haccb).2 a ha
            exact ⟨o, ho, le_trans hob hlt⟩
    · -- the hitting shape is in the tail
      cases hh : hd.hit suv r tmin closest with
      | some lr =>
        have hlr := (Shape.t_bounds suv hd r tmin closest lr hh).2
        rw [list_hit_aux_cons_some suv hd rest r tmin closest acc lr hh]
        exact IH lr.t (some lr) hmem2 (le_trans hlr hcl)
          (Or.inr ⟨lr, rfl, le_refl _⟩)
      | none =>
        rw [list_hit_aux_cons_none suv hd rest r tmin closest acc hh]
        exact IH closest acc hmem2 hcl hinv

/-- The slab test never widens the query interval (no direction hypotheses
needed: each running bound is only ever replaced by a value on the correct
side of the original bound). -/
theorem intersects_bounds (b : BoundingBox) (r : Ray) (tmin tmax : ℚ)
    (ir : IntersectionRecord) (hir : b.intersects r tmin tmax = some ir) :
    tmin ≤ ir.tmin ∧ ir.tmax ≤ tmax := by
  unfold BoundingBox.intersects at hir
  cases h0 : BoundingBox.axis_step b r tmin tmax 0 (tmin, tmax) with
  | none => rw [h0] at hir; exact Option.noConfusion hir
  | some c0 =>
    rw [h0] at hir
    dsimp only at hir
    cases h1 : BoundingBox.axis_step b r tmin tmax 1 c0 with
    | none => rw [h1] at hir; exact Option.noConfusion hir
    | some c1 =>
      rw [h1] at hir
      dsimp only at hir
      cases h2 : BoundingBox.axis_step b r tmin tmax 2 c1 with
      | none => rw [h2] at hir; exact Option.noConfusion hir
      | some c2 =>
        rw [h2] at hir
        dsimp only at hir
        obtain rfl : (⟨c2.1, c2.2⟩ : IntersectionRecord) = ir :=
          Option.some.inj hir
        have b0 := axis_step_bounds b r tmin tmax 0 (tmin, tmax) c0
          (le_refl _) (le_refl _) h0
        have b1 := axis_step_bounds b r tmin tmax 1 c0 c1 b0.1 b0.2.1 h1
        have b2 := axis_step_bounds b r tmin tmax 2 c1 c2 b1.1 b1.2.1 h2
        exact ⟨b2.1, b2.2.1⟩

/-- Soundness of the tree traversal: any returned hit is an actual shape hit
of a member shape, over some subinterval of the query interval (the
box-tightened interval of the leaf's ancestors). -/
theorem traverse_sound (suv : Vec3 → ℚ × ℚ) :
    ∀ (fuel : ℕ) (nodes : List BvhSlab) (i : ℕ) (r : Ray) (a b : ℚ)
      (objs : List Shape) (rec : HitRecord),
      BvhSlab.traverse suv fuel nodes i r a b objs = some (some rec) →
      ∃ s ∈ objs, ∃ a2 b2, a ≤ a2 ∧ b2 ≤ b ∧
        Shape.hit suv s r a2 b2 = some rec := by
  intro fuel
  induction fuel with
  | zero =>
    intro nodes i r a b objs rec h
    exact Option.noConfusion h
  | succ fuel IH =>
    intro nodes i r a b objs rec h
    rw [BvhSlab.traverse_succ] at h
    unfold traverse_step at h
    cases hn : nodes[i]? with
    | none => rw [hn] at h; exact Option.noConfusion h
    | some slab =>
      rw [hn] at h
      cases slab with
      | leaf p si =>
        dsimp only at h
        unfold leaf_step at h
        cases ho : objs[si]? with
        | none => rw [ho] at h; exact Option.noConfusion h
        | some sh =>
          rw [ho] at h
          dsimp only at h
          have hhit : sh.hit suv r a b = some rec := Option.some.inj h
          have hmem : sh ∈ objs := by
            obtain ⟨hlt, rfl⟩ := List.getElem?_eq_some.mp ho
            first
            | exact List.getElem_mem hlt
            | exact List.mem_iff_getElem.mpr ⟨si, hlt, rfl⟩
          exact ⟨sh, hmem, a, b, le_refl _, le_refl _, hhit⟩
      | node p bounds li ri =>
        dsimp only at h
        cases hbx : bounds.intersects r a b with
        | none =>
          rw [hbx] at h
          dsimp only at h
          exact Option.noConfusion (Option.some.inj h)
        | some inter =>
          rw [hbx] at h
          dsimp only at h
          have hb := intersects_bounds bounds r a b inter hbx
          unfold traverse_children at h
          cases hL : BvhSlab.traverse suv fuel nodes li r inter.tmin
              inter.tmax objs with
          | none =>
            rw [hL] at h
            cases hR : BvhSlab.traverse suv fuel nodes ri r inter.tmin
                inter.tmax objs with
            | none => rw [hR] at h; exact Option.noConfusion h
            | some rh => rw [hR] at h; exact Option.noConfusion h
          | some lh =>
            rw [hL] at h
            cases hR : BvhSlab.traverse suv fuel nodes ri r inter.tmin
                inter.tmax objs with
            | none => rw [hR] at h; exact Option.noConfusion h
            | some rh =>
              rw [hR] at h
              dsimp only at h
              have hcomb : combine_hits lh rh = some rec := Option.some.inj h
              have hpick : lh = some rec ∨ rh = some rec := by
                cases lh with
                | none =>
                  cases rh with
                  | none => exact Option.noConfusion hcomb
                  | some rb => exact Or.inr hcomb
                | some la =>
                  cases rh with
                  | none => exact Or.inl hcomb
                  | some rb =>
                    unfold combine_hits at hcomb
                    dsimp only at hcomb
                    split_ifs at hcomb
                    · exact Or.inl hcomb
                    · exact Or.inr hcomb
              rcases hpick with hpick | hpick
              · subst hpick
                obtain ⟨s, hmem, a2, b2, ha2, hb2, hhit⟩ :=
                  IH nodes li r inter.tmin inter.tmax objs rec hL
                exact ⟨s, hmem, a2, b2, le_trans hb.1 ha2,
                  le_trans hb2 hb.2, hhit⟩
              · subst hpick
                obtain ⟨s, hmem, a2, b2, ha2, hb2, hhit⟩ :=
                  IH nodes ri r inter.tmin inter.tmax objs rec hR
                exact ⟨s, hmem, a2, b2, le_trans hb.1 ha2,
                  le_trans hb2 hb.2, hhit⟩

/-- Padding a box with ordered corners yields the invariant: every axis of
extent below `1e-4` is expanded by `1e-4`, every other axis already meets
the bound. -/
theorem pad_minimum_spec (b : BoundingBox)
    (h0 : b.lower.x ≤ b.upper.x) (h1 : b.lower.y ≤ b.upper.y)
    (h2 : b.lower.z ≤ b.upper.z) : box_inv b.pad_minimum := by
  obtain ⟨⟨lx, ly, lz⟩, ⟨ux, uy, uz⟩⟩ := b
  simp only [BoundingBox.pad_minimum, BoundingBox.axis_length, Vec3.axis] at *
  split_ifs with ha hb hc <;>
    unfold box_inv <;>
    simp only [BoundingBox.axis_length, Vec3.axis] <;>
    refine ⟨by linarith, by linarith, by linarith, ?_, ?_, ?_⟩ <;>
    first
      | exact le_of_not_lt (by assumption)
      | exact le_trans (by linarith) (le_abs_self _)

set_option maxHeartbeats 2000000 in
/-- Claim C5, amended: the two-point constructor always establishes the
invariant (ordered corners, extent `≥ 1e-4` on every axis, even for
coincident input points, thanks to the symmetric padding), and merging two
boxes that satisfy the invariant preserves it.  The empty/identity
constructor, by contrast, violates `lower ≤ upper` (see the counterexample
theorem on `BoundingBoxF.empty`). -/
theorem box_creation_invariant :
    (∀ a b : Point3, box_inv (BoundingBox.new a b)) ∧
    (∀ A B : BoundingBox, box_inv A → box_inv B → box_inv (A.box_between B)) := by
  constructor
  · intro a b
    obtain ⟨ax, ay, az⟩ := a
    obtain ⟨bx, by', bz⟩ := b
    unfold BoundingBox.new
    dsimp only
    apply pad_minimum_spec <;> dsimp only <;> split_ifs <;> linarith
  · intro A B hA hB
    obtain ⟨⟨alx, aly, alz⟩, ⟨aux, auy, auz⟩⟩ := A
    obtain ⟨⟨blx, bly, blz⟩, ⟨bux, buy, buz⟩⟩ := B
    unfold box_inv BoundingBox.axis_length Vec3.axis at hA hB ⊢
    dsimp only at hA hB ⊢
    obtain ⟨a1, a2, a3, a4, a5, a6⟩ := hA
    obtain ⟨b1, b2, b3, b4, b5, b6⟩ := hB
    rw [abs_of_nonneg (show (0:ℚ) ≤ aux - alx by linarith)] at a4
    rw [abs_of_nonneg (show (0:ℚ) ≤ auy - aly by linarith)] at a5
    rw [abs_of_nonneg (show (0:ℚ) ≤ auz - alz by linarith)] at a6
    rw [abs_of_nonneg (show (0:ℚ) ≤ bux - blx by linarith)] at b4
    rw [abs_of_nonneg (show (0:ℚ) ≤ buy - bly by linarith)] at b5
    rw [abs_of_nonneg (show (0:ℚ) ≤ buz - blz by linarith)] at b6
    unfold BoundingBox.box_between Vec3.most_minimum Vec3.most_maximum
    dsimp only
    split_ifs <;>
      exact ⟨by linarith, by linarith, by linarith,
        le_trans (by linarith) (le_abs_self _),
        le_trans (by linarith) (le_abs_self _),
        le_trans (by linarith) (le_abs_self _)⟩

/-- Claim C5, amended, witness: the constructor invariant at a pair of
coincident points, and merge preservation at two concrete boxes. -/
theorem box_creation_invariant_witness :
    box_inv (BoundingBox.new ⟨1,2,3⟩ ⟨1,2,3⟩) ∧
    (box_inv (BoundingBox.new ⟨0,0,0⟩ ⟨1,1,1⟩) ∧
     box_inv (BoundingBox.new ⟨2,2,2⟩ ⟨3,3,3⟩) ∧
     box_inv ((BoundingBox.new ⟨0,0,0⟩ ⟨1,1,1⟩).box_between
       (BoundingBox.new ⟨2,2,2⟩ ⟨3,3,3⟩))) :=
  ⟨box_creation_invariant.1 ⟨1,2,3⟩ ⟨1,2,3⟩,
   by decide, by decide,
   box_creation_invariant.2 _ _ (by decide) (by decide)⟩

/-- Claim C6 (code_bug): the code never reports a construction error for a
zero-shape tree.  `BvhTree::new` silently yields an empty, unusable
structure; querying it indexes `nodes[0]` out of bounds, and
`BvhSlab::build_nodes` on an empty list underflows `(0*2)-1` in `usize` —
both panics, mapped to `none` here, where the claim requires an explicit
construction error instead. -/
theorem bvh_zero_shapes_panics :
    BvhTree.new.nodes = [] ∧
    BvhTree.hit suv0 BvhTree.new cx_ray (1/1000) 1000000 = none ∧
    BvhSlab.build_nodes ([] : List Shape) = none := by
  refine ⟨rfl, rfl, rfl⟩

/-- Claim C9, counterexample: on the box `new((0,0,0),(1,1,1))` all three
axis lengths are equal, so a FIRST-found tie-break (as the claim states)
would return axis 0; the code's `max_by` keeps the LAST maximal element and
returns axis 2. -/
theorem longest_axis_tie_is_last :
    (BoundingBox.new ⟨0,0,0⟩ ⟨1,1,1⟩).axis_length 0
        = (BoundingBox.new ⟨0,0,0⟩ ⟨1,1,1⟩).axis_length 1 ∧
    (BoundingBox.new ⟨0,0,0⟩ ⟨1,1,1⟩).axis_length 1
        = (BoundingBox.new ⟨0,0,0⟩ ⟨1,1,1⟩).axis_length 2 ∧
    (BoundingBox.new ⟨0,0,0⟩ ⟨1,1,1⟩).longest_axis = 2 := by
  refine ⟨by decide, by decide, by decide⟩

/-- Claim C9, amended: `longest_axis` returns an axis index in `{0,1,2}` of
maximal axis length, with ties broken by the LAST such axis in iteration
order (every axis after the returned one is strictly shorter). -/
theorem longest_axis_spec (b : BoundingBox) :
    b.longest_axis < 3 ∧
    (∀ j, j < 3 → b.axis_length j ≤ b.axis_length b.longest_axis) ∧
    (∀ j, j < 3 → b.longest_axis < j →
      b.axis_length j < b.axis_length b.longest_axis) := by
  unfold BoundingBox.longest_axis
  dsimp only
  split_ifs with h1 h2 h3 <;>
    refine ⟨by omega, ?_, ?_⟩ <;>
    · intro j hj
      interval_cases j <;> first
        | (intro hlt; omega)
        | (intro hlt; linarith)
        | linarith
        | omega

/-- Claim C9, amended, witness at a concrete box and axis. -/
theorem longest_axis_spec_witness :
    (1 : ℕ) < 3 ∧
    (BoundingBox.new ⟨0,0,0⟩ ⟨2,1,1⟩).axis_length 1
      ≤ (BoundingBox.new ⟨0,0,0⟩ ⟨2,1,1⟩).axis_length
          (BoundingBox.new ⟨0,0,0⟩ ⟨2,1,1⟩).longest_axis :=
  ⟨by decide, (longest_axis_spec (BoundingBox.new ⟨0,0,0⟩ ⟨2,1,1⟩)).2.1 1 (by decide)⟩

/-- Claim C2, counterexample: box `new((5,2,0),(6,3,100))`, ray from the
origin along `(1,1,1)`, query interval `(1/1000, 1000000)`.  The per-axis
`[entry,exit]` pairs are `[5,6]`, `[2,3]`, `[0,100]`; the running
intersection described by the claim empties at axis 1 (`[5,6] ⊓ [2,3] = ∅`),
so the claimed algorithm returns `None` — the code instead compares each
axis against the ORIGINAL bounds and returns `Some (2, 100)` (whose `tmax`
is also not the minimum exit 3). -/
theorem intersects_uses_original_bounds :
    (BoundingBox.new ⟨5,2,0⟩ ⟨6,3,100⟩).intersects ⟨⟨0,0,0⟩,⟨1,1,1⟩,0⟩
      (1/1000) 1000000 = some ⟨2, 100⟩ := by
  decide

/-- Claim C5, counterexample: the empty/identity constructor has
`lower = +∞ > upper = −∞` on every axis, so the claimed invariant
`lower ≤ upper` fails for it (shown on axis 0). -/
theorem empty_box_lower_not_le_upper :
    BoundingBoxF.empty.lower.x.ble BoundingBoxF.empty.upper.x = false := by
  decide

/-- Claim C7 (confirmed): `Sphere::hit` rejects on a negative discriminant;
otherwise it returns the smaller candidate root `(h-√d)/a` when that lies
strictly inside `(tMin,tMax)`, else the larger root `(h+√d)/a` when that
does, else no hit — and on the unit sphere at the origin with ray origin
`(0,0,-5)`, direction `(0,0,1)`, the hit is `t = 4` at point `(0,0,-1)` with
outward normal `(0,0,-1)`. -/
theorem sphere_hit_spec :
    (∀ (suv : Vec3 → ℚ × ℚ) (s : Sphere) (r : Ray) (tmin tmax : ℚ),
      (Sphere.discriminant s r < 0 → s.hit suv r tmin tmax = none) ∧
      (0 ≤ Sphere.discriminant s r →
        Sphere.root1 s r ≤ Sphere.root2 s r ∧
        (s.hit suv r tmin tmax).map HitRecord.t =
          (if tmin < Sphere.root1 s r ∧ Sphere.root1 s r < tmax then
            some (Sphere.root1 s r)
           else if tmin < Sphere.root2 s r ∧ Sphere.root2 s r < tmax then
            some (Sphere.root2 s r)
           else none))) ∧
    (Sphere.hit suv0 (Sphere.new ⟨⟨0,0,0⟩,⟨0,0,0⟩,0⟩ 1 7) ⟨⟨0,0,-5⟩,⟨0,0,1⟩,0⟩
        (1/1000) 1000000).map (fun rec => (rec.t, rec.p, rec.normal))
      = some (4, ⟨0,0,-1⟩, ⟨0,0,-1⟩) := by
  constructor
  · intro suv s r tmin tmax
    constructor
    · intro hneg
      rw [Sphere.hit_eq, if_pos hneg]
    · intro hpos
      refine ⟨Sphere.root1_le_root2 s r, ?_⟩
      rw [Sphere.hit_eq, if_neg (not_lt.mpr hpos)]
      by_cases hA : Sphere.root1 s r ≤ tmin ∨ tmax ≤ Sphere.root1 s r
      · have h1 : ¬(tmin < Sphere.root1 s r ∧ Sphere.root1 s r < tmax) := by
          rcases hA with h | h
          · exact fun hc => absurd hc.1 (not_lt.mpr h)
          · exact fun hc => absurd hc.2 (not_lt.mpr h)
        by_cases hB : Sphere.root2 s r ≤ tmin ∨ tmax ≤ Sphere.root2 s r
        · have h2 : ¬(tmin < Sphere.root2 s r ∧ Sphere.root2 s r < tmax) := by
            rcases hB with h | h
            · exact fun hc => absurd hc.1 (not_lt.mpr h)
            · exact fun hc => absurd hc.2 (not_lt.mpr h)
          rw [if_pos ⟨hA, hB⟩, if_neg h1, if_neg h2]
          rfl
        · have h2 : tmin < Sphere.root2 s r ∧ Sphere.root2 s r < tmax := by
            push_neg at hB
            exact hB
          rw [if_neg (fun hc => hB hc.2), if_neg h1, if_pos h2]
          simp [HitRecord.set_face_normal_t, if_pos hA]
      · have h1 : tmin < Sphere.root1 s r ∧ Sphere.root1 s r < tmax := by
          push_neg at hA
          exact hA
        rw [if_neg (fun hc => hA hc.1), if_pos h1]
        simp [HitRecord.set_face_normal_t, if_neg hA]
  · decide

/-- Claim C7, witness: the universal part applied to the concrete unit
sphere and axis ray, where the discriminant is `1 ≥ 0` and the selected root
is the smaller one, `t = 4`. -/
theorem sphere_hit_spec_witness :
    (0 : ℚ) ≤ Sphere.discriminant (Sphere.new ⟨⟨0,0,0⟩,⟨0,0,0⟩,0⟩ 1 7)
        ⟨⟨0,0,-5⟩,⟨0,0,1⟩,0⟩ ∧
    ((Sphere.new ⟨⟨0,0,0⟩,⟨0,0,0⟩,0⟩ 1 7).hit suv0 ⟨⟨0,0,-5⟩,⟨0,0,1⟩,0⟩
        (1/1000) 1000000).map HitRecord.t = some 4 := by
  refine ⟨by decide, ?_⟩
  have h := (sphere_hit_spec.1 suv0 (Sphere.new ⟨⟨0,0,0⟩,⟨0,0,0⟩,0⟩ 1 7)
    ⟨⟨0,0,-5⟩,⟨0,0,1⟩,0⟩ (1/1000) 1000000).2 (by decide)
  rw [h.2]
  decide

/-- Claim C8 (confirmed): a plane intersection is accepted as interior
exactly when both planar coordinates lie in `[0,1)` (zero included, one
excluded); any intersection whose coordinates fall outside that region
yields no hit; the corner `q` of the unit quad is interior with
`alpha = beta = 0`, while `q+u+v` (with `alpha = beta = 1`) is rejected. -/
theorem quad_interior_spec :
    (∀ a b : ℚ, Quad.is_interior a b = some (a, b) ↔
      (0 ≤ a ∧ a < 1) ∧ (0 ≤ b ∧ b < 1)) ∧
    (∀ (qd : Quad) (r : Ray) (tmin tmax : ℚ),
      ¬((0 ≤ Quad.alpha qd r ∧ Quad.alpha qd r < 1) ∧
        (0 ≤ Quad.beta qd r ∧ Quad.beta qd r < 1)) →
      qd.hit r tmin tmax = none) ∧
    ((Quad.new ⟨0,0,0⟩ ⟨1,0,0⟩ ⟨0,1,0⟩ 3).hit ⟨⟨0,0,-1⟩,⟨0,0,1⟩,0⟩ (1/1000) 100).map
        (fun rec => (rec.t, rec.u, rec.v)) = some (1, 0, 0) ∧
    Quad.alpha (Quad.new ⟨0,0,0⟩ ⟨1,0,0⟩ ⟨0,1,0⟩ 3) ⟨⟨1,1,-1⟩,⟨0,0,1⟩,0⟩ = 1 ∧
    Quad.beta (Quad.new ⟨0,0,0⟩ ⟨1,0,0⟩ ⟨0,1,0⟩ 3) ⟨⟨1,1,-1⟩,⟨0,0,1⟩,0⟩ = 1 ∧
    (Quad.new ⟨0,0,0⟩ ⟨1,0,0⟩ ⟨0,1,0⟩ 3).hit ⟨⟨1,1,-1⟩,⟨0,0,1⟩,0⟩ (1/1000) 100
      = none := by
  refine ⟨?_, ?_, by decide, by decide, by decide, by decide⟩
  · intro a b
    unfold Quad.is_interior
    constructor
    · intro h
      by_contra hc
      rw [if_pos] at h
      · exact Option.noConfusion h
      · tauto
    · intro h
      rw [if_neg]
      tauto
  · intro qd r tmin tmax h
    rw [Quad.hit_unfold]
    have hint : Quad.is_interior (Quad.alpha qd r) (Quad.beta qd r) = none := by
      unfold Quad.is_interior
      rw [if_pos]
      tauto
    split_ifs <;> simp [hint]

/-- Claim C8, witness: the no-hit part applied to the unit quad and a ray
striking the plane at `alpha = beta = 1`. -/
theorem quad_interior_spec_witness :
    ¬((0 ≤ Quad.alpha (Quad.new ⟨0,0,0⟩ ⟨1,0,0⟩ ⟨0,1,0⟩ 3) ⟨⟨1,1,-1⟩,⟨0,0,1⟩,0⟩ ∧
        Quad.alpha (Quad.new ⟨0,0,0⟩ ⟨1,0,0⟩ ⟨0,1,0⟩ 3) ⟨⟨1,1,-1⟩,⟨0,0,1⟩,0⟩ < 1) ∧
      (0 ≤ Quad.beta (Quad.new ⟨0,0,0⟩ ⟨1,0,0⟩ ⟨0,1,0⟩ 3) ⟨⟨1,1,-1⟩,⟨0,0,1⟩,0⟩ ∧
        Quad.beta (Quad.new ⟨0,0,0⟩ ⟨1,0,0⟩ ⟨0,1,0⟩ 3) ⟨⟨1,1,-1⟩,⟨0,0,1⟩,0⟩ < 1)) ∧
    (Quad.new ⟨0,0,0⟩ ⟨1,0,0⟩ ⟨0,1,0⟩ 3).hit ⟨⟨1,1,-1⟩,⟨0,0,1⟩,0⟩ (1/1000) 100
      = none :=
  ⟨by decide,
   quad_interior_spec.2.1 (Quad.new ⟨0,0,0⟩ ⟨1,0,0⟩ ⟨0,1,0⟩ 3)
     ⟨⟨1,1,-1⟩,⟨0,0,1⟩,0⟩ (1/1000) 100 (by decide)⟩

/-- Claim C3 (confirmed): when the ray hits an internal node's box, the
traversal always evaluates BOTH children, each over the TIGHTENED interval
`[inter.tmin, inter.tmax]` returned by the box test (not the original
range), and combines them so that the strictly smaller `t` wins; when both
children hit at exactly equal `t`, the right child's record is returned. -/
theorem traverse_node_spec (suv : Vec3 → ℚ × ℚ) (fuel : ℕ)
    (nodes : List BvhSlab) (i : ℕ) (r : Ray) (tmin tmax : ℚ)
    (objs : List Shape) (p : ℕ) (bx : BoundingBox) (li ri : ℕ)
    (inter : IntersectionRecord) (lh rh : Option HitRecord)
    (hnode : nodes[i]? = some (.node p bx li ri))
    (hint : bx.intersects r tmin tmax = some inter)
    (hl : BvhSlab.traverse suv fuel nodes li r inter.tmin inter.tmax objs = some lh)
    (hr : BvhSlab.traverse suv fuel nodes ri r inter.tmin inter.tmax objs = some rh) :
    BvhSlab.traverse suv (fuel+1) nodes i r tmin tmax objs
        = some (combine_hits lh rh) ∧
    (∀ ha hb, lh = some ha → rh = some hb →
      combine_hits lh rh = some (if ha.t < hb.t then ha else hb)) ∧
    (∀ ha hb, lh = some ha → rh = some hb → ha.t = hb.t →
      combine_hits lh rh = some hb) := by
  refine ⟨?_, ?_, ?_⟩
  · rw [BvhSlab.traverse_succ]
    simp only [traverse_step, hnode, hint, hl, hr, traverse_children]
  · intro ha hb hha hhb
    subst hha; subst hhb
    rfl
  · intro ha hb hha hhb heq
    subst hha; subst hhb
    simp only [combine_hits, if_neg (not_lt.mpr (le_of_eq heq.symm))]

set_option maxHeartbeats 4000000 in
/-- Claim C3, witness: the root node of the two-sphere scene, whose box test
tightens `(1/1000, 1000000)` to `(1, 11)`; the left child hits, the right
child misses, and the parent returns the left hit. -/
theorem traverse_node_spec_witness :
    cx_nodes[0]? = some (.node 0 ⟨⟨-1,-1,-1⟩,⟨1,6,1⟩⟩ 1 2) ∧
    (BoundingBox.intersects ⟨⟨-1,-1,-1⟩,⟨1,6,1⟩⟩ cx_ray (1/1000) 1000000
      = some ⟨1, 11⟩) ∧
    BvhSlab.traverse suv0 1 cx_nodes 1 cx_ray 1 11 cx_shapes
      = some (some cx_tree_rec) ∧
    BvhSlab.traverse suv0 1 cx_nodes 2 cx_ray 1 11 cx_shapes = some none ∧
    BvhSlab.traverse suv0 2 cx_nodes 0 cx_ray (1/1000) 1000000 cx_shapes
      = some (combine_hits (some cx_tree_rec) none) :=
  ⟨by decide, by decide, by decide, by decide,
   (traverse_node_spec suv0 1 cx_nodes 0 cx_ray (1/1000) 1000000 cx_shapes
     0 ⟨⟨-1,-1,-1⟩,⟨1,6,1⟩⟩ 1 2 ⟨1, 11⟩ (some cx_tree_rec) none
     (by decide) (by decide) (by decide) (by decide)).1⟩

/-- Claim C4 (confirmed): for every non-empty list of `n` shapes the build
produces a flat array of exactly `2n-1` slots, laid out as `layout_ok`
demands: each internal node at `p` over a sublist with left half of `L`
shapes has its left child at `p+1` and its right child at `p+1+(2L-1)`, the
left subtree occupying the slots in between (written before the right
subtree), and every singleton sublist yields a `Leaf` slot. -/
theorem build_nodes_layout (objs : List Shape) (h : objs ≠ []) :
    ∃ ns, BvhSlab.build_nodes objs = some ns ∧
      ns.length = 2 * objs.length - 1 ∧
      layout_ok objs.length ns 0 objs.length = true := by
  have hlen0 : objs.length ≠ 0 := by simpa using h
  unfold BvhSlab.build_nodes
  rw [if_neg hlen0]
  obtain ⟨app, h1, h2, h3, h4⟩ :=
    recurse_nodes_structure objs.length (BvhSlab.sort_shapes objs)
      (List.range (BvhSlab.sort_shapes objs).length)
      ([] : List BvhSlab) (objs.length + 1)
      (BvhSlab.sort_shapes_length objs) (by omega)
      (by rw [List.length_range, BvhSlab.sort_shapes_length]) (by omega)
  refine ⟨app, ?_, by rw [h2], ?_⟩
  · simpa using h1
  · have h5 := h4 [] objs.length (le_refl _)
    simpa using h5

/-- Claim C10 (confirmed): in every node array the build produces, the
stored `parent_index` of every slab — `Leaf` and `Node` alike — equals that
slab's OWN position in the flat array (so the array records no parent
relation at all, and in particular the root's `parent_index` is `0`). -/
theorem slab_parent_index_own (objs : List Shape) (ns : List BvhSlab)
    (hbuild : BvhSlab.build_nodes objs = some ns) :
    ∀ (j : ℕ) (s : BvhSlab), ns[j]? = some s → s.parent_index = j := by
  have hne : objs.length ≠ 0 := by
    intro h0
    unfold BvhSlab.build_nodes at hbuild
    rw [if_pos h0] at hbuild
    exact Option.noConfusion hbuild
  unfold BvhSlab.build_nodes at hbuild
  rw [if_neg hne] at hbuild
  obtain ⟨app, h1, h2, h3, h4⟩ :=
    recurse_nodes_structure objs.length (BvhSlab.sort_shapes objs)
      (List.range (BvhSlab.sort_shapes objs).length)
      ([] : List BvhSlab) (objs.length + 1)
      (BvhSlab.sort_shapes_length objs) (by omega)
      (by rw [List.length_range, BvhSlab.sort_shapes_length]) (by omega)
  have h1' : BvhSlab.build_nodes objs = some app := by
    unfold BvhSlab.build_nodes
    rw [if_neg hne]
    simpa using h1
  unfold BvhSlab.build_nodes at h1'
  rw [if_neg hne] at h1'
  rw [h1'] at hbuild
  obtain rfl : app = ns := Option.some.inj hbuild
  intro j s hjs
  have h6 := h3 j s hjs
  simpa using h6

/-- Claim C1, amended: whenever the tree traversal (over any node array and
shape array, in particular those `build_nodes` produces) returns a hit, the
flat list's linear scan over the same shape set (in any order) also returns
a hit, with a hit parameter no larger than the tree's.  Exact agreement of
the two results fails: see the counterexample theorem, where a sphere root
lying exactly on a tightened interval endpoint makes the tree skip the
nearer root. -/
theorem tree_hit_implies_list_hit (suv : Vec3 → ℚ × ℚ) (fuel : ℕ)
    (nodes : List BvhSlab) (objs objs2 : List Shape) (r : Ray)
    (tmin tmax : ℚ) (rec : HitRecord)
    (htree : BvhSlab.traverse suv fuel nodes 0 r tmin tmax objs
      = some (some rec))
    (hperm : objs.Perm objs2) :
    ∃ rec2, list_hit suv objs2 r tmin tmax = some rec2 ∧ rec2.t ≤ rec.t := by
  obtain ⟨s, hmem, a2, b2, ha2, hb2, hhit⟩ :=
    traverse_sound suv fuel nodes 0 r tmin tmax objs rec htree
  obtain ⟨rec3, hh3, hle3⟩ :=
    Shape.widen suv s r a2 b2 tmin tmax rec hhit ha2 hb2
  have hmem2 : s ∈ objs2 := hperm.mem_iff.mp hmem
  obtain ⟨o, ho, hob⟩ := list_hit_aux_finds suv r tmin tmax s rec3 hh3 objs2
    tmax none hmem2 (le_refl _) (Or.inl ⟨rfl, rfl⟩)
  exact ⟨o, ho, le_trans hob hle3⟩


/-- Claim C4, witness: the layout theorem applied to the concrete two-sphere
scene. -/
theorem build_nodes_layout_witness :
    ∃ ns, BvhSlab.build_nodes cx_shapes = some ns ∧
      ns.length = 2 * cx_shapes.length - 1 ∧
      layout_ok cx_shapes.length ns 0 cx_shapes.length = true :=
  build_nodes_layout cx_shapes (by decide)

set_option maxHeartbeats 4000000 in
/-- Claim C10, witness: in the concrete two-sphere scene's node array the
slot at position 1 stores `parent_index = 1` (its own index). -/
theorem slab_parent_index_own_witness :
    (BvhSlab.leaf 1 0).parent_index = 1 :=
  slab_parent_index_own cx_shapes cx_nodes (by decide) 1 (BvhSlab.leaf 1 0)
    (by decide)

set_option maxHeartbeats 8000000 in
/-- Claim C1, counterexample: on the dyadic two-sphere scene `ex_shapes` and
the ray `ex_ray` touching the origin sphere exactly where it meets the
merged box's `x = -9/16` face, the tree (nodes built by `build_nodes`,
traversed from the root) returns the LARGER sphere root `t = 2` — the box
test tightens the interval to `(1, 13/4)` and the leaf re-rejects the true
nearest root `t = 1` via `root <= ray_tmin` — while the flat list's scan,
testing against the original `(1/1000, 10^6)`, returns `t = 1`.  Every
binary64 operation on these inputs is exact (the values are small dyadics,
the discriminant `81/256` is a perfect dyadic square, and each division has
a dyadic result), so the floating-point program computes exactly `2.0`
versus `1.0` at this input, refuting the claimed equivalence. -/
theorem tree_vs_list_counterexample :
    ((BvhSlab.build_nodes ex_shapes).bind
      (fun ns => BvhSlab.traverse suv0 5 ns 0 ex_ray (1/1000) 1000000
        ex_shapes)) = some (some ex_tree_rec) ∧
    (list_hit suv0 ex_shapes ex_ray (1/1000) 1000000).map HitRecord.t
      = some 1 ∧
    ex_tree_rec.t = 2 ∧ (2 : ℚ) ≠ 1 := by
  exact ⟨by decide, by decide, by decide, by decide⟩

set_option maxHeartbeats 8000000 in
/-- Claim C1, amended, witness: the soundness direction applied to the
concrete scene — the list's hit (`t = 1`) is indeed no farther than the
tree's (`t = 2`). -/
theorem tree_hit_implies_list_hit_witness :
    BvhSlab.traverse suv0 5 ex_nodes 0 ex_ray (1/1000) 1000000 ex_shapes
      = some (some ex_tree_rec) ∧
    ∃ rec2, list_hit suv0 ex_shapes ex_ray (1/1000) 1000000 = some rec2 ∧
      rec2.t ≤ ex_tree_rec.t :=
  ⟨by decide,
   tree_hit_implies_list_hit suv0 5 ex_nodes ex_shapes ex_shapes ex_ray
     (1/1000) 1000000 ex_tree_rec (by decide) (List.Perm.refl _)⟩

/-- Claim C2, amended, witness: the conservativeness theorem applied to the
unit box and the diagonal ray; the slab test returns `(1, 2)` and keeps the
interior parameter `t = 3/2`. -/
theorem intersects_conservative_witness :
    (BoundingBox.new ⟨0,0,0⟩ ⟨1,1,1⟩).intersects ⟨⟨-1,-1,-1⟩,⟨1,1,1⟩,0⟩
      (1/1000) 100 = some ⟨1, 2⟩ ∧
    ((1 : ℚ)/1000 ≤ 1 ∧ (2 : ℚ) ≤ 100 ∧ (1 : ℚ) < 2 ∧
      ((1 : ℚ) ≤ 3/2 ∧ (3/2 : ℚ) ≤ 2)) := by
  refine ⟨by decide, ?_⟩
  have h := (intersects_conservative (BoundingBox.new ⟨0,0,0⟩ ⟨1,1,1⟩)
    ⟨⟨-1,-1,-1⟩,⟨1,1,1⟩,0⟩ (1/1000) 100 (by decide) (by decide) (by decide)).1
    ⟨1, 2⟩ (by decide)
  exact ⟨h.1, h.2.1, h.2.2.1, h.2.2.2 (3/2) (by decide) (by decide) (by decide)⟩

end Tracy
